import Mathlib

/-!
Shallow embedding of the core graph pipeline of the `fis-crawler` repository
(`src/fis/graph/build.py`, `enrich_fis.py`, `integrate.py`, `validation.py`),
together with theorems settling the frozen claims about it.

Modelling conventions:
* Python dict attribute maps (pandas rows, networkx node/edge data) become
  insertion-ordered association lists `Attrs` over a universe `Val` of scalar
  values; dict update keeps the position of an existing key and appends new
  keys, exactly like CPython dicts.
* Float columns (route kilometres, coordinates, gap distances) are embedded
  as rationals `ℚ`.
* `networkx.Graph` becomes `Graph α`: an insertion-ordered node list and an
  undirected edge list; `add_edge` implicitly creates missing endpoints with
  an empty attribute dict and updates the attributes of an existing edge,
  `add_node` updates the attributes of an existing node - the exact
  networkx semantics the source relies on.
-/

namespace Fis

/-- Scalar attribute values appearing in node/edge/row dicts of the source:
strings, ints, floats (as `ℚ`), booleans, and null/NaN. -/
inductive Val where
  | null : Val
  | str (s : String) : Val
  | int (n : Int) : Val
  | rat (q : ℚ) : Val
  | bool (b : Bool) : Val
deriving DecidableEq

/-- A Python dict with string keys, as an insertion-ordered association list. -/
abbrev Attrs := List (String × Val)

/-- First-match lookup in an association list (Python `d[k]` / `d.get(k)`). -/
def lookupA {κ ν : Type} [DecidableEq κ] (l : List (κ × ν)) (k : κ) : Option ν :=
  (l.find? (fun p => decide (p.1 = k))).map (fun p => p.2)

/-- Python dict single-key update: replace the value in place when the key is
present (keeping its position), append the pair otherwise. -/
def updateOne {κ ν : Type} [DecidableEq κ] (l : List (κ × ν)) (k : κ) (v : ν) : List (κ × ν) :=
  if l.any (fun p => decide (p.1 = k)) then
    l.map (fun p => if p.1 = k then (k, v) else p)
  else l ++ [(k, v)]

/-- Python `d.update(e)`: fold the entries of `e` into `d` in order. -/
def updateAll {κ ν : Type} [DecidableEq κ] (l e : List (κ × ν)) : List (κ × ν) :=
  e.foldl (fun acc p => updateOne acc p.1 p.2) l

/-- `Attrs.get`: dict lookup specialised to attribute maps. -/
def Attrs.get (a : Attrs) (k : String) : Option Val := lookupA a k

/-- `Attrs.update`: dict update specialised to attribute maps. -/
def Attrs.update (a e : Attrs) : Attrs := updateAll a e

theorem lookupA_nil {κ ν : Type} [DecidableEq κ] (k : κ) :
    lookupA ([] : List (κ × ν)) k = none := rfl

theorem lookupA_cons {κ ν : Type} [DecidableEq κ] (p : κ × ν) (l : List (κ × ν)) (k : κ) :
    lookupA (p :: l) k = if p.1 = k then some p.2 else lookupA l k := by
  by_cases h : p.1 = k <;> simp [lookupA, List.find?_cons, h]

theorem lookupA_eq_none_iff {κ ν : Type} [DecidableEq κ] (l : List (κ × ν)) (k : κ) :
    lookupA l k = none ↔ ∀ p ∈ l, p.1 ≠ k := by
  simp [lookupA, List.find?_eq_none]

theorem lookupA_isSome_iff_any {κ ν : Type} [DecidableEq κ] (l : List (κ × ν)) (k : κ) :
    (lookupA l k).isSome = l.any (fun p => decide (p.1 = k)) := by
  induction l with
  | nil => rfl
  | cons p l ih =>
    by_cases h : p.1 = k <;> simp [lookupA_cons, h, ih]

theorem lookupA_append {κ ν : Type} [DecidableEq κ] (l₁ l₂ : List (κ × ν)) (k : κ) :
    lookupA (l₁ ++ l₂) k = (lookupA l₁ k).or (lookupA l₂ k) := by
  induction l₁ with
  | nil => simp [lookupA_nil]
  | cons p l ih =>
    by_cases h : p.1 = k <;> simp [lookupA_cons, h, ih]

/-- Lookup over an in-place replacement of every entry keyed `k` by `(k, v)`. -/
theorem lookupA_map_replace {κ ν : Type} [DecidableEq κ] (l : List (κ × ν)) (k : κ) (v : ν)
    (k₂ : κ) :
    lookupA (l.map (fun p => if p.1 = k then (k, v) else p)) k₂ =
      if k₂ = k then (lookupA l k).map (fun _ => v) else lookupA l k₂ := by
  induction l with
  | nil => by_cases hk : k₂ = k <;> simp [lookupA_nil, hk]
  | cons p l ih =>
    by_cases hp : p.1 = k
    · by_cases hk : k₂ = k
      · subst hk
        simp [lookupA_cons, hp, ih]
      · have hk2 : ¬k = k₂ := fun h => hk h.symm
        simp [lookupA_cons, hp, hk, hk2, ih]
    · by_cases hpk2 : p.1 = k₂
      · have hk : ¬k₂ = k := fun h => hp (h ▸ hpk2)
        simp [lookupA_cons, hp, hpk2, hk]
      · simp [lookupA_cons, hp, hpk2, ih]

/-- Lookup after a single-key update reads the new value on that key and is
unchanged elsewhere. -/
theorem lookupA_updateOne {κ ν : Type} [DecidableEq κ] (l : List (κ × ν)) (k : κ) (v : ν)
    (k₂ : κ) : lookupA (updateOne l k v) k₂ = if k₂ = k then some v else lookupA l k₂ := by
  unfold updateOne
  by_cases hmem : l.any (fun p => decide (p.1 = k)) = true
  · rw [if_pos hmem, lookupA_map_replace]
    by_cases hk : k₂ = k
    · subst hk
      have hs : (lookupA l k₂).isSome = true := by
        rw [lookupA_isSome_iff_any]; exact hmem
      rcases hsome : lookupA l k₂ with _ | w
      · rw [hsome] at hs; simp at hs
      · simp
    · simp [hk]
  · rw [if_neg hmem, lookupA_append]
    have hnone : lookupA l k = none := by
      rw [lookupA_eq_none_iff]
      intro p hp hpk
      exact hmem (by simp only [List.any_eq_true]; exact ⟨p, hp, by simp [hpk]⟩)
    by_cases hk : k₂ = k
    · subst hk
      rw [hnone, lookupA_cons, if_pos rfl]
      simp
    · rw [lookupA_cons, if_neg (fun h => hk h.symm), lookupA_nil]
      cases hlk : lookupA l k₂ <;> simp [hk]

/-- Keys are preserved by a dict update. -/
theorem lookupA_updateAll_isSome {κ ν : Type} [DecidableEq κ] (l e : List (κ × ν)) (k : κ) :
    (lookupA l k).isSome = true → (lookupA (updateAll l e) k).isSome = true := by
  induction e generalizing l with
  | nil => exact fun h => h
  | cons p e ih =>
    intro h
    refine ih _ ?_
    rw [lookupA_updateOne]
    by_cases hk : k = p.1 <;> simp [hk, h]

/-- Values looked up after a dict update come either from the update entries
or from the original dict. -/
theorem lookupA_updateAll_cases {κ ν : Type} [DecidableEq κ] (l e : List (κ × ν)) (k : κ) :
    lookupA (updateAll l e) k = lookupA l k ∨
      ∃ p ∈ e, p.1 = k ∧ lookupA (updateAll l e) k = some p.2 := by
  induction e generalizing l with
  | nil => exact Or.inl rfl
  | cons p e ih =>
    rcases ih (updateOne l p.1 p.2) with h | ⟨q, hq, hqk, hval⟩
    · rw [updateAll, List.foldl_cons] at *
      rw [h, lookupA_updateOne]
      by_cases hk : k = p.1
      · exact Or.inr ⟨p, by simp, hk.symm, by simp [hk]⟩
      · simp [hk]
    · exact Or.inr ⟨q, by simp [hq], hqk, hval⟩

/-- `d.update(e)` with `e` free of nulls never writes a null: a null can only
be read where `d` already held one. -/
theorem lookupA_updateAll_null (a e : Attrs) (k : String)
    (he : ∀ p ∈ e, p.2 ≠ Val.null) :
    Attrs.get (Attrs.update a e) k = some Val.null → Attrs.get a k = some Val.null := by
  intro h
  simp only [Attrs.get, Attrs.update] at h ⊢
  rcases lookupA_updateAll_cases a e k with hsame | ⟨p, hp, _, hval⟩
  · rwa [hsame] at h
  · rw [hval] at h
    exact absurd (by injection h) (he p hp)

/-- With duplicate-free keys, an association list determines values uniquely. -/
theorem keys_nodup_val_eq {κ ν : Type} [DecidableEq κ] (l : List (κ × ν))
    (hnd : (l.map Prod.fst).Nodup) {k : κ} {v w : ν}
    (hv : (k, v) ∈ l) (hw : (k, w) ∈ l) : v = w := by
  induction l with
  | nil => simp at hv
  | cons p l ih =>
    rw [List.map_cons, List.nodup_cons] at hnd
    rw [List.mem_cons] at hv hw
    rcases hv with hv | hv <;> rcases hw with hw | hw
    · exact congrArg Prod.snd (hv.trans hw.symm)
    · exfalso
      apply hnd.1
      rw [← congrArg Prod.fst hv]
      simp only [List.mem_map]
      exact ⟨(k, w), hw, rfl⟩
    · exfalso
      apply hnd.1
      rw [← congrArg Prod.fst hw]
      simp only [List.mem_map]
      exact ⟨(k, v), hv, rfl⟩
    · exact ih hnd.2 hv hw

/-- With duplicate-free keys, lookup finds exactly the member with that key. -/
theorem lookupA_eq_some_of_mem {κ ν : Type} [DecidableEq κ] (l : List (κ × ν))
    (hnd : (l.map Prod.fst).Nodup) {k : κ} {v : ν} (hv : (k, v) ∈ l) :
    lookupA l k = some v := by
  induction l with
  | nil => simp at hv
  | cons p l ih =>
    simp only [List.map_cons, List.nodup_cons] at hnd
    rcases List.mem_cons.1 hv with rfl | hv
    · simp [lookupA_cons]
    · have hpk : p.1 ≠ k := by
        intro h
        apply hnd.1
        rw [h]
        exact List.mem_map_of_mem Prod.fst hv
      simp [lookupA_cons, hpk, ih hnd.2 hv]

/-- Updating an entry of a duplicate-free dict with its own value is a no-op. -/
theorem updateOne_self {κ ν : Type} [DecidableEq κ] (l : List (κ × ν))
    (hnd : (l.map Prod.fst).Nodup) {k : κ} {v : ν} (hv : (k, v) ∈ l) :
    updateOne l k v = l := by
  unfold updateOne
  have hany : l.any (fun p => decide (p.1 = k)) = true := by
    simp only [List.any_eq_true]
    exact ⟨(k, v), hv, by simp⟩
  simp only [hany, if_true]
  conv_rhs => rw [← List.map_id l]
  refine List.map_congr_left ?_
  intro p hp
  by_cases hpk : p.1 = k
  · have hkp : (k, p.2) ∈ l := by
      rw [← hpk]
      simpa using hp
    have hp2 : p.2 = v := keys_nodup_val_eq l hnd hkp hv
    simp only [hpk, if_true, id]
    rw [← hpk, ← hp2]
  · simp [hpk]

/-- Attribute-carrying undirected graph in the style of `networkx.Graph`:
an insertion-ordered node list (id, attribute dict) and an edge list
(endpoint pair, attribute dict), the pair being unordered for lookup. -/
structure Graph (α : Type) where
  nodes : List (α × Attrs)
  edges : List (α × α × Attrs)
deriving DecidableEq

/-- An empty `networkx.Graph()`. -/
def Graph.empty (α : Type) : Graph α := ⟨[], []⟩

section GraphOps

variable {α : Type} [DecidableEq α]

/-- `g.has_node(x)`. -/
def Graph.hasNode (g : Graph α) (x : α) : Bool :=
  g.nodes.any (fun p => decide (p.1 = x))

/-- `g.nodes[x]`, as an option. -/
def Graph.nodeAttrs (g : Graph α) (x : α) : Option Attrs := lookupA g.nodes x

/-- Whether the unordered endpoint pair `(u, v)` coincides with `(x, y)`. -/
def pairMatch (u v x y : α) : Bool :=
  (decide (u = x) && decide (v = y)) || (decide (u = y) && decide (v = x))

/-- `g.has_edge(x, y)` (undirected). -/
def Graph.hasEdge (g : Graph α) (x y : α) : Bool :=
  g.edges.any (fun e => pairMatch e.1 e.2.1 x y)

/-- `g.edges[x, y]`, as an option (undirected lookup). -/
def Graph.edgeAttrs (g : Graph α) (x y : α) : Option Attrs :=
  (g.edges.find? (fun e => pairMatch e.1 e.2.1 x y)).map (fun e => e.2.2)

/-- `g.add_node(x, **a)`: update the attribute dict of an existing node in
place, or append a fresh node. -/
def Graph.addNode (g : Graph α) (x : α) (a : Attrs) : Graph α :=
  if g.hasNode x then
    { g with nodes := g.nodes.map (fun p => if p.1 = x then (x, p.2.update a) else p) }
  else { g with nodes := g.nodes ++ [(x, a)] }

/-- The implicit node creation of `add_edge`: a missing endpoint is appended
with an empty attribute dict, an existing endpoint is left untouched. -/
def Graph.ensureNode (g : Graph α) (x : α) : Graph α :=
  if g.hasNode x then g else { g with nodes := g.nodes ++ [(x, [])] }

/-- `g.add_edge(x, y, **a)`: create the endpoints when missing, then either
update the attribute dict of the existing undirected edge or append a new
edge. -/
def Graph.addEdge (g : Graph α) (x y : α) (a : Attrs) : Graph α :=
  let g1 := (g.ensureNode x).ensureNode y
  if g1.hasEdge x y then
    { g1 with
      edges := g1.edges.map (fun e =>
        if pairMatch e.1 e.2.1 x y then (e.1, e.2.1, e.2.2.update a) else e) }
  else { g1 with edges := g1.edges ++ [(x, y, a)] }

theorem pairMatch_iff {u v x y : α} :
    pairMatch u v x y = true ↔ (u = x ∧ v = y) ∨ (u = y ∧ v = x) := by
  simp [pairMatch]

theorem pairMatch_refl (u v : α) : pairMatch u v u v = true := by
  simp [pairMatch]

theorem pairMatch_symm (u v x y : α) : pairMatch u v x y = pairMatch x y u v := by
  rcases h : pairMatch x y u v with _ | _
  · rcases h2 : pairMatch u v x y with _ | _
    · rfl
    · rw [pairMatch_iff] at h2
      rw [Bool.eq_false_iff] at h
      exfalso
      apply h
      rw [pairMatch_iff]
      rcases h2 with ⟨rfl, rfl⟩ | ⟨rfl, rfl⟩ <;> simp
  · rw [pairMatch_iff] at h ⊢
    rcases h with ⟨rfl, rfl⟩ | ⟨rfl, rfl⟩ <;> simp

/-- Two unordered pairs both matching `(x, y)` match each other. -/
theorem pairMatch_trans_left {a b u v x y : α} (h1 : pairMatch a b x y = true)
    (h2 : pairMatch u v x y = true) : pairMatch a b u v = true := by
  rw [pairMatch_iff] at h1 h2 ⊢
  rcases h2 with ⟨rfl, rfl⟩ | ⟨rfl, rfl⟩ <;>
    rcases h1 with ⟨rfl, rfl⟩ | ⟨h1a, h1b⟩ <;> simp_all

@[simp] theorem Graph.edges_addNode (g : Graph α) (n : α) (a : Attrs) :
    (g.addNode n a).edges = g.edges := by
  unfold Graph.addNode
  split <;> rfl

@[simp] theorem Graph.edges_ensureNode (g : Graph α) (n : α) :
    (g.ensureNode n).edges = g.edges := by
  unfold Graph.ensureNode
  split <;> rfl

theorem Graph.nodeAttrs_eq_none_iff (g : Graph α) (x : α) :
    g.nodeAttrs x = none ↔ g.hasNode x = false := by
  unfold Graph.nodeAttrs Graph.hasNode
  rw [← lookupA_isSome_iff_any]
  cases h : lookupA g.nodes x <;> simp [h]

theorem Graph.hasNode_addNode (g : Graph α) (n : α) (a : Attrs) (x : α) :
    (g.addNode n a).hasNode x = (g.hasNode x || decide (n = x)) := by
  unfold Graph.addNode
  by_cases hn : g.hasNode n = true
  · rw [if_pos hn]
    have hmap : (Graph.hasNode
        { g with nodes := g.nodes.map (fun p => if p.1 = n then (n, p.2.update a) else p) } x) =
        g.hasNode x := by
      unfold Graph.hasNode
      rw [List.any_map]
      congr 1
      funext p
      by_cases hp : p.1 = n <;> simp [hp, Function.comp]
    rw [hmap]
    by_cases hnx : n = x
    · subst hnx
      simp [hn]
    · simp [hnx]
  · rw [if_neg hn]
    unfold Graph.hasNode
    simp [List.any_append]

theorem Graph.hasNode_ensureNode (g : Graph α) (n : α) (x : α) :
    (g.ensureNode n).hasNode x = (g.hasNode x || decide (n = x)) := by
  unfold Graph.ensureNode
  by_cases hn : g.hasNode n = true
  · rw [if_pos hn]
    by_cases hnx : n = x
    · subst hnx
      simp [hn]
    · simp [hnx]
  · rw [if_neg hn]
    unfold Graph.hasNode
    simp [List.any_append]

@[simp] theorem Graph.nodes_addEdge (g : Graph α) (u v : α) (a : Attrs) :
    (g.addEdge u v a).nodes = ((g.ensureNode u).ensureNode v).nodes := by
  simp only [Graph.addEdge]
  split <;> rfl

theorem Graph.hasNode_addEdge (g : Graph α) (u v : α) (a : Attrs) (x : α) :
    (g.addEdge u v a).hasNode x = (g.hasNode x || decide (u = x) || decide (v = x)) := by
  unfold Graph.hasNode
  rw [Graph.nodes_addEdge]
  have hens : ((g.ensureNode u).ensureNode v).hasNode x =
      (g.hasNode x || decide (u = x) || decide (v = x)) := by
    rw [Graph.hasNode_ensureNode, Graph.hasNode_ensureNode]
  unfold Graph.hasNode at hens
  exact hens

theorem Graph.nodeAttrs_ensureNode (g : Graph α) (n : α) (x : α) :
    (g.ensureNode n).nodeAttrs x =
      if g.hasNode x then g.nodeAttrs x
      else if n = x then some [] else none := by
  unfold Graph.ensureNode
  by_cases hn : g.hasNode n = true
  · rw [if_pos hn]
    by_cases hx : g.hasNode x = true
    · rw [if_pos hx]
    · rw [if_neg hx]
      have hnx : ¬n = x := by
        intro h
        rw [h] at hn
        exact absurd hn (by simpa using hx)
      rw [if_neg hnx]
      exact (g.nodeAttrs_eq_none_iff x).2 (by simpa using hx)
  · rw [if_neg hn]
    unfold Graph.nodeAttrs at *
    simp only [lookupA_append]
    by_cases hx : g.hasNode x = true
    · rw [if_pos hx]
      have : (lookupA g.nodes x).isSome = true := by
        rw [lookupA_isSome_iff_any]
        exact hx
      rcases hs : lookupA g.nodes x with _ | w
      · rw [hs] at this
        simp at this
      · simp
    · rw [if_neg hx]
      have hnone : lookupA g.nodes x = none := by
        have := (g.nodeAttrs_eq_none_iff x).2 (by simpa using hx)
        exact this
      rw [hnone]
      by_cases hnx : n = x <;> simp [lookupA_cons, lookupA_nil, hnx]

theorem Graph.nodeAttrs_addEdge (g : Graph α) (u v : α) (a : Attrs) (x : α) :
    (g.addEdge u v a).nodeAttrs x =
      if g.hasNode x then g.nodeAttrs x
      else if u = x ∨ v = x then some [] else none := by
  unfold Graph.nodeAttrs
  rw [Graph.nodes_addEdge]
  have hattrs : ((g.ensureNode u).ensureNode v).nodeAttrs x =
      if g.hasNode x then g.nodeAttrs x
      else if u = x ∨ v = x then some [] else none := by
    rw [Graph.nodeAttrs_ensureNode, Graph.nodeAttrs_ensureNode, Graph.hasNode_ensureNode]
    by_cases hx : g.hasNode x = true
    · simp [hx]
    · simp only [hx, Bool.false_or, if_false]
      by_cases hu : u = x
      · simp [hu]
      · by_cases hv : v = x <;> simp [hu, hv]
  unfold Graph.nodeAttrs at hattrs
  exact hattrs

@[simp] theorem Graph.hasEdge_addNode (g : Graph α) (n : α) (a : Attrs) (x y : α) :
    (g.addNode n a).hasEdge x y = g.hasEdge x y := by
  unfold Graph.hasEdge
  rw [Graph.edges_addNode]

@[simp] theorem Graph.edgeAttrs_addNode (g : Graph α) (n : α) (a : Attrs) (x y : α) :
    (g.addNode n a).edgeAttrs x y = g.edgeAttrs x y := by
  unfold Graph.edgeAttrs
  rw [Graph.edges_addNode]

/-- In-place update of the `(u, v)` edge attributes preserves endpoints, so
edge existence queries are unchanged. -/
theorem any_map_edgeUpdate (l : List (α × α × Attrs)) (u v x y : α) (a : Attrs) :
    (l.map (fun e =>
        if pairMatch e.1 e.2.1 u v then (e.1, e.2.1, e.2.2.update a) else e)).any
      (fun e => pairMatch e.1 e.2.1 x y) = l.any (fun e => pairMatch e.1 e.2.1 x y) := by
  rw [List.any_map]
  congr 1
  funext e
  by_cases hp : pairMatch e.1 e.2.1 u v = true <;> simp [hp, Function.comp]

theorem find?_map_edgeUpdate (l : List (α × α × Attrs)) (u v x y : α) (a : Attrs) :
    (l.map (fun e =>
        if pairMatch e.1 e.2.1 u v then (e.1, e.2.1, e.2.2.update a) else e)).find?
      (fun e => pairMatch e.1 e.2.1 x y) =
      (l.find? (fun e => pairMatch e.1 e.2.1 x y)).map (fun e =>
        if pairMatch e.1 e.2.1 u v then (e.1, e.2.1, e.2.2.update a) else e) := by
  rw [List.find?_map]
  have hpred : ((fun e : α × α × Attrs => pairMatch e.1 e.2.1 x y) ∘ fun e =>
      if pairMatch e.1 e.2.1 u v = true then (e.1, e.2.1, e.2.2.update a) else e) =
      (fun e : α × α × Attrs => pairMatch e.1 e.2.1 x y) := by
    funext e
    by_cases hp : pairMatch e.1 e.2.1 u v = true <;> simp [hp, Function.comp]
  rw [hpred]

theorem Graph.hasEdge_addEdge (g : Graph α) (u v : α) (a : Attrs) (x y : α) :
    (g.addEdge u v a).hasEdge x y = (g.hasEdge x y || pairMatch u v x y) := by
  have hedges : ((g.ensureNode u).ensureNode v).edges = g.edges := by
    rw [Graph.edges_ensureNode, Graph.edges_ensureNode]
  simp only [Graph.addEdge]
  split
  · rename_i hsplit
    unfold Graph.hasEdge at hsplit ⊢
    rw [hedges] at hsplit ⊢
    rw [any_map_edgeUpdate]
    by_cases hxy : pairMatch u v x y = true
    · rw [hxy, Bool.or_true]
      rw [List.any_eq_true] at hsplit ⊢
      obtain ⟨e, he, hpe⟩ := hsplit
      exact ⟨e, he, pairMatch_trans_left (by simpa using hpe)
        (by rw [pairMatch_symm]; exact hxy)⟩
    · rw [Bool.eq_false_iff.2 hxy, Bool.or_false]
  · unfold Graph.hasEdge
    rw [hedges]
    simp [List.any_append]

theorem Graph.edgeAttrs_addEdge_other (g : Graph α) (u v : α) (a : Attrs) (x y : α)
    (hxy : pairMatch u v x y = false) :
    (g.addEdge u v a).edgeAttrs x y = g.edgeAttrs x y := by
  have hedges : ((g.ensureNode u).ensureNode v).edges = g.edges := by
    rw [Graph.edges_ensureNode, Graph.edges_ensureNode]
  simp only [Graph.addEdge]
  split
  · unfold Graph.edgeAttrs
    rw [hedges, find?_map_edgeUpdate]
    cases hfind : g.edges.find? (fun e => pairMatch e.1 e.2.1 x y) with
    | none => rfl
    | some e =>
      have hpe : pairMatch e.1 e.2.1 x y = true := by
        simpa using List.find?_some hfind
      have hne : pairMatch e.1 e.2.1 u v = false := by
        rcases h : pairMatch e.1 e.2.1 u v with _ | _
        · rfl
        · exfalso
          have h1 : pairMatch u v e.1 e.2.1 = true := by
            rw [pairMatch_symm]; exact h
          have h2 : pairMatch x y e.1 e.2.1 = true := by
            rw [pairMatch_symm]; exact hpe
          have hcontr : pairMatch u v x y = true := pairMatch_trans_left h1 h2
          rw [hcontr] at hxy
          exact Bool.true_eq_false.mp hxy
      simp [hne]
  · unfold Graph.edgeAttrs
    rw [hedges]
    rw [List.find?_append]
    have hsingle : [(u, v, a)].find? (fun e => pairMatch e.1 e.2.1 x y) = none := by
      simp [hxy]
    rw [hsingle]
    cases g.edges.find? (fun e => pairMatch e.1 e.2.1 x y) <;> rfl

theorem Graph.edgeAttrs_addEdge_same_new (g : Graph α) (u v : α) (a : Attrs) (x y : α)
    (hnew : g.hasEdge x y = false) (hxy : pairMatch u v x y = true) :
    (g.addEdge u v a).edgeAttrs x y = some a := by
  have hedges : ((g.ensureNode u).ensureNode v).edges = g.edges := by
    rw [Graph.edges_ensureNode, Graph.edges_ensureNode]
  have hnewuv : ((g.ensureNode u).ensureNode v).hasEdge u v = false := by
    unfold Graph.hasEdge at hnew ⊢
    rw [hedges]
    rw [List.any_eq_false] at hnew ⊢
    intro e he hpe
    exact hnew e he (pairMatch_trans_left (by simpa using hpe) (by rw [pairMatch_symm]; exact hxy))
  simp only [Graph.addEdge]
  rw [if_neg (by simp [hnewuv])]
  unfold Graph.edgeAttrs
  rw [hedges]
  rw [List.find?_append]
  have hfind : g.edges.find? (fun e => pairMatch e.1 e.2.1 x y) = none := by
    rw [List.find?_eq_none]
    unfold Graph.hasEdge at hnew
    rw [List.any_eq_false] at hnew
    intro e he
    simpa using hnew e he
  rw [hfind]
  simp [hxy]

theorem Graph.edgeAttrs_addEdge_same_old (g : Graph α) (u v : α) (a : Attrs) (x y : α)
    (hold : g.hasEdge x y = true) (hxy : pairMatch u v x y = true) :
    (g.addEdge u v a).edgeAttrs x y = (g.edgeAttrs x y).map (fun b => b.update a) := by
  have hedges : ((g.ensureNode u).ensureNode v).edges = g.edges := by
    rw [Graph.edges_ensureNode, Graph.edges_ensureNode]
  have holduv : ((g.ensureNode u).ensureNode v).hasEdge u v = true := by
    unfold Graph.hasEdge at hold ⊢
    rw [hedges]
    rw [List.any_eq_true] at hold ⊢
    obtain ⟨e, he, hpe⟩ := hold
    exact ⟨e, he, pairMatch_trans_left (by simpa using hpe) hxy⟩
  simp only [Graph.addEdge]
  rw [if_pos holduv]
  unfold Graph.edgeAttrs
  simp only
  rw [hedges, find?_map_edgeUpdate]
  cases hfind : g.edges.find? (fun e => pairMatch e.1 e.2.1 x y) with
  | none =>
    unfold Graph.hasEdge at hold
    rw [List.find?_eq_none] at hfind
    rw [List.any_eq_true] at hold
    obtain ⟨e, he, hpe⟩ := hold
    exact absurd (by simpa using hpe) (by simpa using hfind e he)
  | some e =>
    have hpe : pairMatch e.1 e.2.1 x y = true := by
      simpa using List.find?_some hfind
    have huv : pairMatch e.1 e.2.1 u v = true :=
      pairMatch_trans_left hpe hxy
    simp [huv]

end GraphOps

/-!
### `integrate.py`: border stitching and graph merging

`find_geometric_border_connections` (integrate.py lines 50-190) projects FIS
node coordinates to a metric CRS, then matches each EURIS bridgehead to the
nearest FIS node (`dists.min()` / `dists.idxmin()`, lines 147-156) and
accepts the match when the minimum distance is strictly below the threshold.
The projection itself is an external geodesy library; the model works on the
already-projected coordinates, which is all the matching logic reads.
Distances are represented by their squares: squaring is strictly monotone on
nonnegative reals, so minimisation, first-argmin selection and the strict
threshold comparison of the source are mirrored exactly by comparing squared
distances against the squared threshold.
-/

/-- Squared Euclidean distance between two projected points. -/
def distSq (p q : ℚ × ℚ) : ℚ :=
  (p.1 - q.1) * (p.1 - q.1) + (p.2 - q.2) * (p.2 - q.2)

/-- `dists.min()` together with `dists.idxmin()` over the FIS point index:
the first index attaining the minimum (squared) distance to `p`, paired with
that minimum.  `none` exactly when the index is empty. -/
def nearest_fis_node : List (Int × ℚ × ℚ) → ℚ × ℚ → Option (Int × ℚ)
  | [], _ => none
  | e :: rest, p =>
    match nearest_fis_node rest p with
    | none => some (e.1, distSq e.2 p)
    | some (j, d) => if distSq e.2 p ≤ d then some (e.1, distSq e.2 p) else some (j, d)

/-- Bridgehead matching (integrate.py lines 148-156): nearest FIS node,
accepted only when the minimum distance is strictly below
`distance_threshold` (squared on both sides in this model). -/
def match_bridgehead (idx : List (Int × ℚ × ℚ)) (distance_threshold : ℚ)
    (p : ℚ × ℚ) : Option (Int × ℚ) :=
  match nearest_fis_node idx p with
  | none => none
  | some (j, d) =>
    if d < distance_threshold * distance_threshold then some (j, d) else none

/-- Lobith correction node exclusions of `merge_graphs` (integrate.py line 214). -/
def pruneNodeIds : List Int := [22637860, 22638030]

/-- Lobith correction edge exclusions of `merge_graphs` (integrate.py line 226). -/
def pruneEdgeIds : List Int := [22638449]

/-- A border connection dict as produced by
`find_geometric_border_connections` and consumed by `merge_graphs`.
The Python key `type` is spelled `ctype` here (`type` is a Lean keyword). -/
structure Connection where
  foreign_node : String
  foreign_cc : String
  bridgehead_node : String
  fis_node : Int
  distance : ℚ
  ctype : String
  edge_attrs : Attrs
deriving DecidableEq

/-- Node identifiers of the combined graph.  The source namespaces ids by
string prefixing (`f"FIS_{node_id}"`, `f"EURIS_{node_id}"`); since the two
prefixed forms can never collide and prefixing a decimal rendering is
injective, the namespaced string ids are modelled by this tagged sum. -/
inductive MergedId where
  | fis (n : Int)
  | euris (s : String)
deriving DecidableEq

/-- Loop body of the FIS node insertion (integrate.py lines 217-221).  The
Python call passes `data_source="FIS"` before `**attrs`, so the tag is the
first dict entry; an `attrs` that itself contained `data_source` would raise
`TypeError` in Python, and here the first (tag) entry wins on lookup. -/
def fisNodeStep (acc : Graph MergedId) (p : Int × Attrs) : Graph MergedId :=
  if p.1 ∈ pruneNodeIds then acc
  else acc.addNode (MergedId.fis p.1) (("data_source", Val.str "FIS") :: p.2)

/-- Guard of the FIS edge insertion loop (integrate.py lines 228-239): skip
the edge when its `Id` attribute is a pruned edge id or either endpoint is a
pruned node. -/
def fisEdgeSkipped (e : Int × Int × Attrs) : Bool :=
  (match Attrs.get e.2.2 "Id" with
   | some (Val.int n) => decide (n ∈ pruneEdgeIds)
   | _ => false)
  || decide (e.1 ∈ pruneNodeIds) || decide (e.2.1 ∈ pruneNodeIds)

/-- Loop body of the FIS edge insertion (integrate.py lines 228-241). -/
def fisEdgeStep (acc : Graph MergedId) (e : Int × Int × Attrs) : Graph MergedId :=
  if fisEdgeSkipped e then acc
  else acc.addEdge (MergedId.fis e.1) (MergedId.fis e.2.1)
    (("data_source", Val.str "FIS") :: e.2.2)

/-- Loop body of the EURIS node insertion (integrate.py lines 245-249):
nodes whose `countrycode` is `"NL"` are skipped. -/
def eurisNodeStep (acc : Graph MergedId) (p : String × Attrs) : Graph MergedId :=
  if decide (Attrs.get p.2 "countrycode" = some (Val.str "NL")) then acc
  else acc.addNode (MergedId.euris p.1) (("data_source", Val.str "EURIS") :: p.2)

/-- `euris_graph.nodes[u].get("countrycode")` (integrate.py lines 255-256). -/
def euris_cc (euris : Graph String) (n : String) : Option Val :=
  (euris.nodeAttrs n).bind (fun a => Attrs.get a "countrycode")

/-- Guard of the EURIS edge insertion loop (integrate.py line 258): skip the
edge when either endpoint is tagged `"NL"`. -/
def eurisEdgeSkipped (euris : Graph String) (e : String × String × Attrs) : Bool :=
  decide (euris_cc euris e.1 = some (Val.str "NL")) ||
    decide (euris_cc euris e.2.1 = some (Val.str "NL"))

/-- Loop body of the EURIS edge insertion (integrate.py lines 253-261). -/
def eurisEdgeStep (euris : Graph String) (acc : Graph MergedId)
    (e : String × String × Attrs) : Graph MergedId :=
  if eurisEdgeSkipped euris e then acc
  else acc.addEdge (MergedId.euris e.1) (MergedId.euris e.2.1)
    (("data_source", Val.str "EURIS") :: e.2.2)

/-- Border edge attributes (integrate.py lines 272-282): the original EURIS
edge attributes updated with the merge metadata. -/
def border_edge_attrs (c : Connection) : Attrs :=
  c.edge_attrs.update
    [("data_source", Val.str "BORDER"), ("bridgehead", Val.str c.bridgehead_node),
     ("distance_gap", Val.rat c.distance), ("connection_type", Val.str c.ctype)]

/-- Loop body of the border connection insertion (integrate.py lines 265-284). -/
def connectionStep (acc : Graph MergedId) (c : Connection) : Graph MergedId :=
  acc.addEdge (MergedId.fis c.fis_node) (MergedId.euris c.foreign_node)
    (border_edge_attrs c)

/-- `merge_graphs` before the border connection loop: FIS nodes, FIS edges,
EURIS nodes, EURIS edges inserted in source order into an empty graph. -/
def merge_base (fis : Graph Int) (euris : Graph String) : Graph MergedId :=
  euris.edges.foldl (eurisEdgeStep euris)
    (euris.nodes.foldl eurisNodeStep
      (fis.edges.foldl fisEdgeStep
        (fis.nodes.foldl fisNodeStep (Graph.empty MergedId))))

/-- `merge_graphs(fis_graph, euris_graph, connections)` (integrate.py lines
193-293). -/
def merge_graphs (fis : Graph Int) (euris : Graph String)
    (connections : List Connection) : Graph MergedId :=
  connections.foldl connectionStep (merge_base fis euris)

theorem fisNodeStep_pruned (g : Graph MergedId) (p : Int × Attrs)
    (hp : p.1 ∈ pruneNodeIds) : fisNodeStep g p = g := by
  unfold fisNodeStep
  rw [if_pos hp]

theorem fisNodeStep_kept (g : Graph MergedId) (p : Int × Attrs)
    (hp : p.1 ∉ pruneNodeIds) :
    fisNodeStep g p = g.addNode (MergedId.fis p.1) (("data_source", Val.str "FIS") :: p.2) := by
  unfold fisNodeStep
  rw [if_neg hp]

theorem eurisNodeStep_nl (g : Graph MergedId) (p : String × Attrs)
    (hp : Attrs.get p.2 "countrycode" = some (Val.str "NL")) : eurisNodeStep g p = g := by
  unfold eurisNodeStep
  rw [if_pos (by simp [hp])]

theorem eurisNodeStep_kept (g : Graph MergedId) (p : String × Attrs)
    (hp : ¬Attrs.get p.2 "countrycode" = some (Val.str "NL")) :
    eurisNodeStep g p =
      g.addNode (MergedId.euris p.1) (("data_source", Val.str "EURIS") :: p.2) := by
  unfold eurisNodeStep
  rw [if_neg (by simp [hp])]

theorem fisEdgeStep_skipped (g : Graph MergedId) (e : Int × Int × Attrs)
    (he : fisEdgeSkipped e = true) : fisEdgeStep g e = g := by
  unfold fisEdgeStep
  rw [if_pos he]

theorem fisEdgeStep_kept (g : Graph MergedId) (e : Int × Int × Attrs)
    (he : ¬fisEdgeSkipped e = true) :
    fisEdgeStep g e =
      g.addEdge (MergedId.fis e.1) (MergedId.fis e.2.1)
        (("data_source", Val.str "FIS") :: e.2.2) := by
  unfold fisEdgeStep
  rw [if_neg he]

theorem eurisEdgeStep_skipped (euris : Graph String) (g : Graph MergedId)
    (e : String × String × Attrs) (he : eurisEdgeSkipped euris e = true) :
    eurisEdgeStep euris g e = g := by
  unfold eurisEdgeStep
  rw [if_pos he]

theorem eurisEdgeStep_kept (euris : Graph String) (g : Graph MergedId)
    (e : String × String × Attrs) (he : ¬eurisEdgeSkipped euris e = true) :
    eurisEdgeStep euris g e =
      g.addEdge (MergedId.euris e.1) (MergedId.euris e.2.1)
        (("data_source", Val.str "EURIS") :: e.2.2) := by
  unfold eurisEdgeStep
  rw [if_neg he]

theorem connectionStep_eq (g : Graph MergedId) (c : Connection) :
    connectionStep g c =
      g.addEdge (MergedId.fis c.fis_node) (MergedId.euris c.foreign_node)
        (border_edge_attrs c) := rfl

theorem hasNode_foldl_fisNodeStep (l : List (Int × Attrs)) (g : Graph MergedId)
    (x : MergedId) :
    (l.foldl fisNodeStep g).hasNode x = true ↔
      g.hasNode x = true ∨ ∃ p ∈ l, p.1 ∉ pruneNodeIds ∧ x = MergedId.fis p.1 := by
  induction l generalizing g with
  | nil => simp
  | cons p l ih =>
    rw [List.foldl_cons]
    by_cases hp : p.1 ∈ pruneNodeIds
    · rw [fisNodeStep_pruned g p hp, ih]
      simp only [List.mem_cons]
      constructor
      · rintro (h | ⟨q, hq, h1, h2⟩)
        · exact Or.inl h
        · exact Or.inr ⟨q, Or.inr hq, h1, h2⟩
      · rintro (h | ⟨q, (rfl | hq), h1, h2⟩)
        · exact Or.inl h
        · exact absurd hp h1
        · exact Or.inr ⟨q, hq, h1, h2⟩
    · rw [fisNodeStep_kept g p hp, ih, Graph.hasNode_addNode]
      simp only [Bool.or_eq_true, decide_eq_true_eq, List.mem_cons]
      constructor
      · rintro ((h | h) | ⟨q, hq, h1, h2⟩)
        · exact Or.inl h
        · exact Or.inr ⟨p, Or.inl rfl, hp, h.symm⟩
        · exact Or.inr ⟨q, Or.inr hq, h1, h2⟩
      · rintro (h | ⟨q, (rfl | hq), h1, h2⟩)
        · exact Or.inl (Or.inl h)
        · exact Or.inl (Or.inr h2.symm)
        · exact Or.inr ⟨q, hq, h1, h2⟩

@[simp] theorem edges_foldl_fisNodeStep (l : List (Int × Attrs)) (g : Graph MergedId) :
    (l.foldl fisNodeStep g).edges = g.edges := by
  induction l generalizing g with
  | nil => rfl
  | cons p l ih =>
    rw [List.foldl_cons, ih]
    unfold fisNodeStep
    split <;> simp

theorem hasNode_foldl_eurisNodeStep (l : List (String × Attrs)) (g : Graph MergedId)
    (x : MergedId) :
    (l.foldl eurisNodeStep g).hasNode x = true ↔
      g.hasNode x = true ∨
        ∃ p ∈ l, ¬Attrs.get p.2 "countrycode" = some (Val.str "NL") ∧
          x = MergedId.euris p.1 := by
  induction l generalizing g with
  | nil => simp
  | cons p l ih =>
    rw [List.foldl_cons]
    by_cases hp : Attrs.get p.2 "countrycode" = some (Val.str "NL")
    · rw [eurisNodeStep_nl g p hp, ih]
      simp only [List.mem_cons]
      constructor
      · rintro (h | ⟨q, hq, h1, h2⟩)
        · exact Or.inl h
        · exact Or.inr ⟨q, Or.inr hq, h1, h2⟩
      · rintro (h | ⟨q, (rfl | hq), h1, h2⟩)
        · exact Or.inl h
        · exact absurd hp h1
        · exact Or.inr ⟨q, hq, h1, h2⟩
    · rw [eurisNodeStep_kept g p hp, ih, Graph.hasNode_addNode]
      simp only [Bool.or_eq_true, decide_eq_true_eq, List.mem_cons]
      constructor
      · rintro ((h | h) | ⟨q, hq, h1, h2⟩)
        · exact Or.inl h
        · exact Or.inr ⟨p, Or.inl rfl, hp, h.symm⟩
        · exact Or.inr ⟨q, Or.inr hq, h1, h2⟩
      · rintro (h | ⟨q, (rfl | hq), h1, h2⟩)
        · exact Or.inl (Or.inl h)
        · exact Or.inl (Or.inr h2.symm)
        · exact Or.inr ⟨q, hq, h1, h2⟩

@[simp] theorem edges_foldl_eurisNodeStep (l : List (String × Attrs)) (g : Graph MergedId) :
    (l.foldl eurisNodeStep g).edges = g.edges := by
  induction l generalizing g with
  | nil => rfl
  | cons p l ih =>
    rw [List.foldl_cons, ih]
    unfold eurisNodeStep
    split <;> simp

theorem hasNode_foldl_fisEdgeStep (l : List (Int × Int × Attrs)) (g : Graph MergedId)
    (x : MergedId) :
    (l.foldl fisEdgeStep g).hasNode x = true ↔
      g.hasNode x = true ∨
        ∃ e ∈ l, fisEdgeSkipped e = false ∧
          (x = MergedId.fis e.1 ∨ x = MergedId.fis e.2.1) := by
  induction l generalizing g with
  | nil => simp
  | cons e l ih =>
    rw [List.foldl_cons]
    by_cases he : fisEdgeSkipped e = true
    · rw [fisEdgeStep_skipped g e he, ih]
      simp only [List.mem_cons]
      constructor
      · rintro (h | ⟨q, hq, h1, h2⟩)
        · exact Or.inl h
        · exact Or.inr ⟨q, Or.inr hq, h1, h2⟩
      · rintro (h | ⟨q, (rfl | hq), h1, h2⟩)
        · exact Or.inl h
        · rw [he] at h1
          exact absurd h1 (by simp)
        · exact Or.inr ⟨q, hq, h1, h2⟩
    · rw [fisEdgeStep_kept g e he, ih, Graph.hasNode_addEdge]
      simp only [Bool.or_eq_true, decide_eq_true_eq, List.mem_cons]
      constructor
      · rintro (((h | h) | h) | ⟨q, hq, h1, h2⟩)
        · exact Or.inl h
        · exact Or.inr ⟨e, Or.inl rfl, by simpa using he, Or.inl h.symm⟩
        · exact Or.inr ⟨e, Or.inl rfl, by simpa using he, Or.inr h.symm⟩
        · exact Or.inr ⟨q, Or.inr hq, h1, h2⟩
      · rintro (h | ⟨q, (rfl | hq), h1, (h2 | h2)⟩)
        · exact Or.inl (Or.inl (Or.inl h))
        · exact Or.inl (Or.inl (Or.inr h2.symm))
        · exact Or.inl (Or.inr h2.symm)
        · exact Or.inr ⟨q, hq, h1, Or.inl h2⟩
        · exact Or.inr ⟨q, hq, h1, Or.inr h2⟩

theorem hasEdge_foldl_fisEdgeStep (l : List (Int × Int × Attrs)) (g : Graph MergedId)
    (x y : MergedId) :
    (l.foldl fisEdgeStep g).hasEdge x y = true ↔
      g.hasEdge x y = true ∨
        ∃ e ∈ l, fisEdgeSkipped e = false ∧
          pairMatch (MergedId.fis e.1) (MergedId.fis e.2.1) x y = true := by
  induction l generalizing g with
  | nil => simp
  | cons e l ih =>
    rw [List.foldl_cons]
    by_cases he : fisEdgeSkipped e = true
    · rw [fisEdgeStep_skipped g e he, ih]
      simp only [List.mem_cons]
      constructor
      · rintro (h | ⟨q, hq, h1, h2⟩)
        · exact Or.inl h
        · exact Or.inr ⟨q, Or.inr hq, h1, h2⟩
      · rintro (h | ⟨q, (rfl | hq), h1, h2⟩)
        · exact Or.inl h
        · rw [he] at h1
          exact absurd h1 (by simp)
        · exact Or.inr ⟨q, hq, h1, h2⟩
    · rw [fisEdgeStep_kept g e he, ih, Graph.hasEdge_addEdge]
      simp only [Bool.or_eq_true, List.mem_cons]
      constructor
      · rintro ((h | h) | ⟨q, hq, h1, h2⟩)
        · exact Or.inl h
        · exact Or.inr ⟨e, Or.inl rfl, by simpa using he, h⟩
        · exact Or.inr ⟨q, Or.inr hq, h1, h2⟩
      · rintro (h | ⟨q, (rfl | hq), h1, h2⟩)
        · exact Or.inl (Or.inl h)
        · exact Or.inl (Or.inr h2)
        · exact Or.inr ⟨q, hq, h1, h2⟩

theorem hasNode_foldl_eurisEdgeStep (euris : Graph String)
    (l : List (String × String × Attrs)) (g : Graph MergedId) (x : MergedId) :
    (l.foldl (eurisEdgeStep euris) g).hasNode x = true ↔
      g.hasNode x = true ∨
        ∃ e ∈ l, eurisEdgeSkipped euris e = false ∧
          (x = MergedId.euris e.1 ∨ x = MergedId.euris e.2.1) := by
  induction l generalizing g with
  | nil => simp
  | cons e l ih =>
    rw [List.foldl_cons]
    by_cases he : eurisEdgeSkipped euris e = true
    · rw [eurisEdgeStep_skipped euris g e he, ih]
      simp only [List.mem_cons]
      constructor
      · rintro (h | ⟨q, hq, h1, h2⟩)
        · exact Or.inl h
        · exact Or.inr ⟨q, Or.inr hq, h1, h2⟩
      · rintro (h | ⟨q, (rfl | hq), h1, h2⟩)
        · exact Or.inl h
        · rw [he] at h1
          exact absurd h1 (by simp)
        · exact Or.inr ⟨q, hq, h1, h2⟩
    · rw [eurisEdgeStep_kept euris g e he, ih, Graph.hasNode_addEdge]
      simp only [Bool.or_eq_true, decide_eq_true_eq, List.mem_cons]
      constructor
      · rintro (((h | h) | h) | ⟨q, hq, h1, h2⟩)
        · exact Or.inl h
        · exact Or.inr ⟨e, Or.inl rfl, by simpa using he, Or.inl h.symm⟩
        · exact Or.inr ⟨e, Or.inl rfl, by simpa using he, Or.inr h.symm⟩
        · exact Or.inr ⟨q, Or.inr hq, h1, h2⟩
      · rintro (h | ⟨q, (rfl | hq), h1, (h2 | h2)⟩)
        · exact Or.inl (Or.inl (Or.inl h))
        · exact Or.inl (Or.inl (Or.inr h2.symm))
        · exact Or.inl (Or.inr h2.symm)
        · exact Or.inr ⟨q, hq, h1, Or.inl h2⟩
        · exact Or.inr ⟨q, hq, h1, Or.inr h2⟩

theorem hasEdge_foldl_eurisEdgeStep (euris : Graph String)
    (l : List (String × String × Attrs)) (g : Graph MergedId) (x y : MergedId) :
    (l.foldl (eurisEdgeStep euris) g).hasEdge x y = true ↔
      g.hasEdge x y = true ∨
        ∃ e ∈ l, eurisEdgeSkipped euris e = false ∧
          pairMatch (MergedId.euris e.1) (MergedId.euris e.2.1) x y = true := by
  induction l generalizing g with
  | nil => simp
  | cons e l ih =>
    rw [List.foldl_cons]
    by_cases he : eurisEdgeSkipped euris e = true
    · rw [eurisEdgeStep_skipped euris g e he, ih]
      simp only [List.mem_cons]
      constructor
      · rintro (h | ⟨q, hq, h1, h2⟩)
        · exact Or.inl h
        · exact Or.inr ⟨q, Or.inr hq, h1, h2⟩
      · rintro (h | ⟨q, (rfl | hq), h1, h2⟩)
        · exact Or.inl h
        · rw [he] at h1
          exact absurd h1 (by simp)
        · exact Or.inr ⟨q, hq, h1, h2⟩
    · rw [eurisEdgeStep_kept euris g e he, ih, Graph.hasEdge_addEdge]
      simp only [Bool.or_eq_true, List.mem_cons]
      constructor
      · rintro ((h | h) | ⟨q, hq, h1, h2⟩)
        · exact Or.inl h
        · exact Or.inr ⟨e, Or.inl rfl, by simpa using he, h⟩
        · exact Or.inr ⟨q, Or.inr hq, h1, h2⟩
      · rintro (h | ⟨q, (rfl | hq), h1, h2⟩)
        · exact Or.inl (Or.inl h)
        · exact Or.inl (Or.inr h2)
        · exact Or.inr ⟨q, hq, h1, h2⟩

theorem hasNode_foldl_connectionStep (l : List Connection) (g : Graph MergedId)
    (x : MergedId) :
    (l.foldl connectionStep g).hasNode x = true ↔
      g.hasNode x = true ∨
        ∃ c ∈ l, x = MergedId.fis c.fis_node ∨ x = MergedId.euris c.foreign_node := by
  induction l generalizing g with
  | nil => simp
  | cons c l ih =>
    rw [List.foldl_cons, connectionStep_eq, ih, Graph.hasNode_addEdge]
    simp only [Bool.or_eq_true, decide_eq_true_eq, List.mem_cons]
    constructor
    · rintro (((h | h) | h) | ⟨q, hq, h2⟩)
      · exact Or.inl h
      · exact Or.inr ⟨c, Or.inl rfl, Or.inl h.symm⟩
      · exact Or.inr ⟨c, Or.inl rfl, Or.inr h.symm⟩
      · exact Or.inr ⟨q, Or.inr hq, h2⟩
    · rintro (h | ⟨q, (rfl | hq), (h2 | h2)⟩)
      · exact Or.inl (Or.inl (Or.inl h))
      · exact Or.inl (Or.inl (Or.inr h2.symm))
      · exact Or.inl (Or.inr h2.symm)
      · exact Or.inr ⟨q, hq, Or.inl h2⟩
      · exact Or.inr ⟨q, hq, Or.inr h2⟩

theorem hasEdge_foldl_connectionStep (l : List Connection) (g : Graph MergedId)
    (x y : MergedId) :
    (l.foldl connectionStep g).hasEdge x y = true ↔
      g.hasEdge x y = true ∨
        ∃ c ∈ l,
          pairMatch (MergedId.fis c.fis_node) (MergedId.euris c.foreign_node) x y = true := by
  induction l generalizing g with
  | nil => simp
  | cons c l ih =>
    rw [List.foldl_cons, connectionStep_eq, ih, Graph.hasEdge_addEdge]
    simp only [Bool.or_eq_true, List.mem_cons]
    constructor
    · rintro ((h | h) | ⟨q, hq, h2⟩)
      · exact Or.inl h
      · exact Or.inr ⟨c, Or.inl rfl, h⟩
      · exact Or.inr ⟨q, Or.inr hq, h2⟩
    · rintro (h | ⟨q, (rfl | hq), h2⟩)
      · exact Or.inl (Or.inl h)
      · exact Or.inl (Or.inr h2)
      · exact Or.inr ⟨q, hq, h2⟩

/-- The border connection loop never changes the attributes of an existing
node; a node it creates implicitly carries the empty attribute dict. -/
theorem nodeAttrs_foldl_connectionStep (l : List Connection) (g : Graph MergedId)
    (x : MergedId) :
    (l.foldl connectionStep g).nodeAttrs x = g.nodeAttrs x ∨
      (g.nodeAttrs x = none ∧ (l.foldl connectionStep g).nodeAttrs x = some []) := by
  induction l generalizing g with
  | nil => exact Or.inl rfl
  | cons c l ih =>
    rw [List.foldl_cons]
    rcases ih (connectionStep g c) with h | ⟨h1, h2⟩
    · rw [h, connectionStep_eq, Graph.nodeAttrs_addEdge]
      by_cases hx : g.hasNode x = true
      · rw [if_pos hx]
        exact Or.inl rfl
      · rw [if_neg hx]
        have hnone : g.nodeAttrs x = none := (g.nodeAttrs_eq_none_iff x).2 (by simpa using hx)
        split
        · exact Or.inr ⟨hnone, rfl⟩
        · exact Or.inl hnone.symm
    · rw [connectionStep_eq, Graph.nodeAttrs_addEdge] at h1
      by_cases hx : g.hasNode x = true
      · rw [if_pos hx] at h1
        exact Or.inr ⟨h1, h2⟩
      · rw [if_neg hx] at h1
        exact Or.inr ⟨(g.nodeAttrs_eq_none_iff x).2 (by simpa using hx), h2⟩

@[simp] theorem hasEdge_foldl_fisNodeStep (l : List (Int × Attrs)) (g : Graph MergedId)
    (x y : MergedId) : (l.foldl fisNodeStep g).hasEdge x y = g.hasEdge x y := by
  unfold Graph.hasEdge
  rw [edges_foldl_fisNodeStep]

@[simp] theorem hasEdge_foldl_eurisNodeStep (l : List (String × Attrs)) (g : Graph MergedId)
    (x y : MergedId) : (l.foldl eurisNodeStep g).hasEdge x y = g.hasEdge x y := by
  unfold Graph.hasEdge
  rw [edges_foldl_eurisNodeStep]

theorem hasNode_merge_base (fis : Graph Int) (euris : Graph String) (x : MergedId) :
    (merge_base fis euris).hasNode x = true ↔
      (∃ p ∈ fis.nodes, p.1 ∉ pruneNodeIds ∧ x = MergedId.fis p.1) ∨
      (∃ e ∈ fis.edges, fisEdgeSkipped e = false ∧
        (x = MergedId.fis e.1 ∨ x = MergedId.fis e.2.1)) ∨
      (∃ p ∈ euris.nodes, ¬Attrs.get p.2 "countrycode" = some (Val.str "NL") ∧
        x = MergedId.euris p.1) ∨
      (∃ e ∈ euris.edges, eurisEdgeSkipped euris e = false ∧
        (x = MergedId.euris e.1 ∨ x = MergedId.euris e.2.1)) := by
  unfold merge_base
  rw [hasNode_foldl_eurisEdgeStep, hasNode_foldl_eurisNodeStep, hasNode_foldl_fisEdgeStep,
    hasNode_foldl_fisNodeStep]
  have hempty : (Graph.empty MergedId).hasNode x = false := rfl
  rw [hempty]
  simp only [Bool.false_eq_true, false_or]
  rw [or_assoc, or_assoc]

theorem hasEdge_merge_base (fis : Graph Int) (euris : Graph String) (x y : MergedId) :
    (merge_base fis euris).hasEdge x y = true ↔
      (∃ e ∈ fis.edges, fisEdgeSkipped e = false ∧
        pairMatch (MergedId.fis e.1) (MergedId.fis e.2.1) x y = true) ∨
      (∃ e ∈ euris.edges, eurisEdgeSkipped euris e = false ∧
        pairMatch (MergedId.euris e.1) (MergedId.euris e.2.1) x y = true) := by
  unfold merge_base
  rw [hasEdge_foldl_eurisEdgeStep, hasEdge_foldl_eurisNodeStep, hasEdge_foldl_fisEdgeStep]
  have hempty : (Graph.empty MergedId).hasEdge x y = false := rfl
  rw [hasEdge_foldl_fisNodeStep, hempty]
  simp only [Bool.false_eq_true, false_or]

theorem hasNode_merge_graphs (fis : Graph Int) (euris : Graph String)
    (conns : List Connection) (x : MergedId) :
    (merge_graphs fis euris conns).hasNode x = true ↔
      (merge_base fis euris).hasNode x = true ∨
        ∃ c ∈ conns, x = MergedId.fis c.fis_node ∨ x = MergedId.euris c.foreign_node := by
  unfold merge_graphs
  exact hasNode_foldl_connectionStep conns (merge_base fis euris) x

theorem hasEdge_merge_graphs (fis : Graph Int) (euris : Graph String)
    (conns : List Connection) (x y : MergedId) :
    (merge_graphs fis euris conns).hasEdge x y = true ↔
      (merge_base fis euris).hasEdge x y = true ∨
        ∃ c ∈ conns,
          pairMatch (MergedId.fis c.fis_node) (MergedId.euris c.foreign_node) x y = true := by
  unfold merge_graphs
  exact hasEdge_foldl_connectionStep conns (merge_base fis euris) x y

theorem pairMatch_fis_fis (a b u v : Int) :
    pairMatch (MergedId.fis a) (MergedId.fis b) (MergedId.fis u) (MergedId.fis v) =
      pairMatch a b u v := by
  rcases h : pairMatch a b u v with _ | _
  · rw [Bool.eq_false_iff] at h ⊢
    intro hc
    apply h
    rw [pairMatch_iff] at hc ⊢
    rcases hc with ⟨h1, h2⟩ | ⟨h1, h2⟩
    · exact Or.inl ⟨by injection h1, by injection h2⟩
    · exact Or.inr ⟨by injection h1, by injection h2⟩
  · rw [pairMatch_iff] at h ⊢
    rcases h with ⟨rfl, rfl⟩ | ⟨rfl, rfl⟩
    · exact Or.inl ⟨rfl, rfl⟩
    · exact Or.inr ⟨rfl, rfl⟩

theorem pairMatch_mixed_fis_false (a : Int) (s : String) (u v : Int) :
    pairMatch (MergedId.fis a) (MergedId.euris s) (MergedId.fis u) (MergedId.fis v) =
      false := by
  rw [Bool.eq_false_iff]
  intro hc
  rw [pairMatch_iff] at hc
  rcases hc with ⟨h1, h2⟩ | ⟨h1, h2⟩ <;> exact absurd h2 (by simp)

theorem pairMatch_euris_fis_false (s t : String) (u v : Int) :
    pairMatch (MergedId.euris s) (MergedId.euris t) (MergedId.fis u) (MergedId.fis v) =
      false := by
  rw [Bool.eq_false_iff]
  intro hc
  rw [pairMatch_iff] at hc
  rcases hc with ⟨h1, h2⟩ | ⟨h1, h2⟩ <;> exact absurd h1 (by simp)

/-- In an edge list whose unordered endpoint pairs are pairwise distinct (a
`networkx.Graph` invariant: at most one edge per node pair), any member
pair-matching a member `e` is `e` itself. -/
theorem pairwise_pair_unique {β : Type} [DecidableEq β] (l : List (β × β × Attrs))
    (hp : l.Pairwise (fun e1 e2 => pairMatch e1.1 e1.2.1 e2.1 e2.2.1 = false))
    {e q : β × β × Attrs} (he : e ∈ l) (hq : q ∈ l)
    (hm : pairMatch q.1 q.2.1 e.1 e.2.1 = true) : q = e := by
  induction l with
  | nil => simp at he
  | cons a l ih =>
    rw [List.pairwise_cons] at hp
    rw [List.mem_cons] at he hq
    rcases he with rfl | he
    · rcases hq with rfl | hq
      · rfl
      · exfalso
        have h1 := hp.1 q hq
        rw [pairMatch_symm] at hm
        rw [h1] at hm
        exact absurd hm (by simp)
    · rcases hq with rfl | hq
      · exfalso
        have h1 := hp.1 e he
        rw [h1] at hm
        exact absurd hm (by simp)
      · exact ih hp.2 he hq

theorem fisEdgeSkipped_of_id {e : Int × Int × Attrs} {m : Int}
    (hid : Attrs.get e.2.2 "Id" = some (Val.int m)) (hm : m ∈ pruneEdgeIds) :
    fisEdgeSkipped e = true := by
  unfold fisEdgeSkipped
  rw [hid]
  simp [hm]

theorem fisEdgeSkipped_of_node {e : Int × Int × Attrs}
    (h : e.1 ∈ pruneNodeIds ∨ e.2.1 ∈ pruneNodeIds) : fisEdgeSkipped e = true := by
  unfold fisEdgeSkipped
  rcases h with h | h <;> simp [h]

theorem not_prune_of_not_skipped {e : Int × Int × Attrs}
    (h : fisEdgeSkipped e = false) : e.1 ∉ pruneNodeIds ∧ e.2.1 ∉ pruneNodeIds := by
  unfold fisEdgeSkipped at h
  simp only [Bool.or_eq_false_iff, decide_eq_false_iff_not] at h
  exact ⟨h.1.2, h.2⟩

theorem eurisEdgeSkipped_eq_false {euris : Graph String} {e : String × String × Attrs}
    (h : eurisEdgeSkipped euris e = false) :
    ¬euris_cc euris e.1 = some (Val.str "NL") ∧
      ¬euris_cc euris e.2.1 = some (Val.str "NL") := by
  unfold eurisEdgeSkipped at h
  simp only [Bool.or_eq_false_iff, decide_eq_false_iff_not] at h
  exact h

/-- No edge over a skipped FIS edge's endpoint pair survives into the merged
graph (given the networkx invariant of one edge per unordered pair). -/
theorem merge_graphs_no_skipped_fis_edge (fis : Graph Int) (euris : Graph String)
    (conns : List Connection)
    (hfp : fis.edges.Pairwise (fun e1 e2 => pairMatch e1.1 e1.2.1 e2.1 e2.2.1 = false))
    {e : Int × Int × Attrs} (he : e ∈ fis.edges) (hskip : fisEdgeSkipped e = true) :
    (merge_graphs fis euris conns).hasEdge (MergedId.fis e.1) (MergedId.fis e.2.1) = false := by
  rw [Bool.eq_false_iff]
  intro hc
  rw [hasEdge_merge_graphs, hasEdge_merge_base] at hc
  rcases hc with (⟨q, hq, hqs, hqm⟩ | ⟨q, _, _, hqm⟩) | ⟨c, _, hcm⟩
  · rw [pairMatch_fis_fis] at hqm
    have hqe : q = e := pairwise_pair_unique fis.edges hfp he hq hqm
    rw [hqe, hskip] at hqs
    exact absurd hqs (by simp)
  · rw [pairMatch_euris_fis_false] at hqm
    exact absurd hqm (by simp)
  · rw [pairMatch_mixed_fis_false] at hcm
    exact absurd hcm (by simp)

/-- C1 (amended): provided the supplied border connections reference neither
a pruned FIS node nor an NL-tagged EURIS node (the border-connection loop
adds its edge unconditionally and would re-create such an endpoint), and
given the networkx invariants of unique node ids and one edge per unordered
pair, the merged graph omits every NL-tagged EURIS node, contains no
namespaced counterpart of a pruned node or pruned edge, and drops every FIS
edge touching a pruned node. -/
theorem merge_graphs_exclusions
    (fis : Graph Int) (euris : Graph String) (conns : List Connection)
    (hnd : (euris.nodes.map Prod.fst).Nodup)
    (hfp : fis.edges.Pairwise (fun e1 e2 => pairMatch e1.1 e1.2.1 e2.1 e2.2.1 = false))
    (hconn : ∀ c ∈ conns, c.fis_node ∉ pruneNodeIds ∧
      ¬euris_cc euris c.foreign_node = some (Val.str "NL")) :
    (∀ p ∈ euris.nodes, Attrs.get p.2 "countrycode" = some (Val.str "NL") →
        (merge_graphs fis euris conns).hasNode (MergedId.euris p.1) = false) ∧
    (∀ n ∈ pruneNodeIds,
        (merge_graphs fis euris conns).hasNode (MergedId.fis n) = false) ∧
    (∀ e ∈ fis.edges, ∀ m ∈ pruneEdgeIds, Attrs.get e.2.2 "Id" = some (Val.int m) →
        (merge_graphs fis euris conns).hasEdge (MergedId.fis e.1) (MergedId.fis e.2.1) =
          false) ∧
    (∀ e ∈ fis.edges, e.1 ∈ pruneNodeIds ∨ e.2.1 ∈ pruneNodeIds →
        (merge_graphs fis euris conns).hasEdge (MergedId.fis e.1) (MergedId.fis e.2.1) =
          false) := by
  refine ⟨?_, ?_, ?_, ?_⟩
  · intro p hp hNL
    have hcc : euris_cc euris p.1 = some (Val.str "NL") := by
      unfold euris_cc Graph.nodeAttrs
      rw [lookupA_eq_some_of_mem euris.nodes hnd (by simpa using hp)]
      simpa using hNL
    rw [Bool.eq_false_iff]
    intro hc
    rw [hasNode_merge_graphs, hasNode_merge_base] at hc
    rcases hc with (⟨q, hq, hq1, hq2⟩ | ⟨q, hq, hq1, hq2⟩ | ⟨q, hq, hq1, hq2⟩ |
      ⟨q, hq, hq1, hq2⟩) | ⟨c, hcmem, hcx⟩
    · simp at hq2
    · rcases hq2 with h | h <;> simp at h
    · have hpq : p.1 = q.1 := by injection hq2
      have hq2mem : ((p.1 : String), q.2) ∈ euris.nodes := by
        rw [hpq]
        simpa using hq
      have hp2mem : ((p.1 : String), p.2) ∈ euris.nodes := by simpa using hp
      have hval : p.2 = q.2 := keys_nodup_val_eq euris.nodes hnd hp2mem hq2mem
      rw [← hval] at hq1
      exact hq1 hNL
    · have hskip := eurisEdgeSkipped_eq_false hq1
      rcases hq2 with h | h
      · have : p.1 = q.1 := by injection h
        rw [this] at hcc
        exact hskip.1 hcc
      · have : p.1 = q.2.1 := by injection h
        rw [this] at hcc
        exact hskip.2 hcc
    · rcases hcx with h | h
      · simp at h
      · have : p.1 = c.foreign_node := by injection h
        rw [this] at hcc
        exact (hconn c hcmem).2 hcc
  · intro n hn
    rw [Bool.eq_false_iff]
    intro hc
    rw [hasNode_merge_graphs, hasNode_merge_base] at hc
    rcases hc with (⟨q, hq, hq1, hq2⟩ | ⟨q, hq, hq1, hq2⟩ | ⟨q, hq, hq1, hq2⟩ |
      ⟨q, hq, hq1, hq2⟩) | ⟨c, hcmem, hcx⟩
    · have : n = q.1 := by injection hq2
      rw [this] at hn
      exact hq1 hn
    · have hnp := not_prune_of_not_skipped hq1
      rcases hq2 with h | h
      · have : n = q.1 := by injection h
        rw [this] at hn
        exact hnp.1 hn
      · have : n = q.2.1 := by injection h
        rw [this] at hn
        exact hnp.2 hn
    · simp at hq2
    · rcases hq2 with h | h <;> simp at h
    · rcases hcx with h | h
      · have : n = c.fis_node := by injection h
        rw [this] at hn
        exact (hconn c hcmem).1 hn
      · simp at h
  · intro e he m hm hid
    exact merge_graphs_no_skipped_fis_edge fis euris conns hfp he
      (fisEdgeSkipped_of_id hid hm)
  · intro e he h
    exact merge_graphs_no_skipped_fis_edge fis euris conns hfp he
      (fisEdgeSkipped_of_node h)

/-- Concrete graphs exercising `merge_graphs_exclusions`. -/
def fisW : Graph Int :=
  ⟨[(22637860, []), (1, []), (2, []), (3, [])],
   [(1, 22637860, [("Id", Val.int 5)]), (1, 2, [("Id", Val.int 22638449)]),
    (2, 3, [("Id", Val.int 7)])]⟩

def eurisW : Graph String :=
  ⟨[("NL1", [("countrycode", Val.str "NL")]), ("DE1", [("countrycode", Val.str "DE")])],
   [("NL1", "DE1", [])]⟩

def connsW : List Connection :=
  [⟨"DE1", "DE", "NL1", 3, 15, "geometric", []⟩]

theorem merge_graphs_exclusions_witness :
    (merge_graphs fisW eurisW connsW).hasNode (MergedId.euris "NL1") = false ∧
    (merge_graphs fisW eurisW connsW).hasNode (MergedId.fis 22637860) = false ∧
    (merge_graphs fisW eurisW connsW).hasEdge (MergedId.fis 1) (MergedId.fis 2) = false ∧
    (merge_graphs fisW eurisW connsW).hasEdge (MergedId.fis 1) (MergedId.fis 22637860) =
      false := by
  have h := merge_graphs_exclusions fisW eurisW connsW (by decide) (by decide) (by decide)
  exact ⟨h.1 ("NL1", [("countrycode", Val.str "NL")]) (by decide) (by decide),
    h.2.1 22637860 (by decide),
    h.2.2.1 (1, 2, [("Id", Val.int 22638449)]) (by decide) 22638449 (by decide) (by decide),
    h.2.2.2 (1, 22637860, [("Id", Val.int 5)]) (by decide) (Or.inr (by decide))⟩

/-- Inputs refuting C1 as stated: a border connection names the pruned FIS
node 22637860 as its FIS endpoint, and the connection loop re-creates it. -/
def fisCE : Graph Int := ⟨[(22637860, [])], []⟩

def connsCE : List Connection :=
  [⟨"X", "DE", "NL9", 22637860, 5, "geometric", []⟩]

theorem merge_graphs_exclusions_counterexample :
    22637860 ∈ pruneNodeIds ∧
      (merge_graphs fisCE (Graph.empty String) connsCE).hasNode
        (MergedId.fis 22637860) = true := ⟨by decide, by decide⟩

/-- C10: every supplied border connection contributes its namespaced edge
unconditionally, and an endpoint that is not already a node of the merged
graph before the connection loop is created implicitly with an empty
attribute dict - in particular with no `data_source` tag. -/
theorem merge_graphs_connection_edges
    (fis : Graph Int) (euris : Graph String) (conns : List Connection) :
    ∀ c ∈ conns,
      (merge_graphs fis euris conns).hasEdge (MergedId.fis c.fis_node)
        (MergedId.euris c.foreign_node) = true ∧
      ((merge_base fis euris).hasNode (MergedId.fis c.fis_node) = false →
        (merge_graphs fis euris conns).nodeAttrs (MergedId.fis c.fis_node) = some []) ∧
      ((merge_base fis euris).hasNode (MergedId.euris c.foreign_node) = false →
        (merge_graphs fis euris conns).nodeAttrs (MergedId.euris c.foreign_node) =
          some []) := by
  intro c hc
  unfold merge_graphs
  refine ⟨?_, ?_, ?_⟩
  · rw [hasEdge_foldl_connectionStep]
    exact Or.inr ⟨c, hc, pairMatch_refl _ _⟩
  · intro hno
    have hb : (merge_base fis euris).nodeAttrs (MergedId.fis c.fis_node) = none :=
      ((merge_base fis euris).nodeAttrs_eq_none_iff _).2 hno
    rcases nodeAttrs_foldl_connectionStep conns (merge_base fis euris)
        (MergedId.fis c.fis_node) with h | ⟨_, h2⟩
    · exfalso
      have hnode : (conns.foldl connectionStep (merge_base fis euris)).hasNode
          (MergedId.fis c.fis_node) = true := by
        rw [hasNode_foldl_connectionStep]
        exact Or.inr ⟨c, hc, Or.inl rfl⟩
      have hnone : (conns.foldl connectionStep (merge_base fis euris)).nodeAttrs
          (MergedId.fis c.fis_node) = none := by rw [h, hb]
      rw [(Graph.nodeAttrs_eq_none_iff _ _).1 hnone] at hnode
      exact absurd hnode (by simp)
    · exact h2
  · intro hno
    have hb : (merge_base fis euris).nodeAttrs (MergedId.euris c.foreign_node) = none :=
      ((merge_base fis euris).nodeAttrs_eq_none_iff _).2 hno
    rcases nodeAttrs_foldl_connectionStep conns (merge_base fis euris)
        (MergedId.euris c.foreign_node) with h | ⟨_, h2⟩
    · exfalso
      have hnode : (conns.foldl connectionStep (merge_base fis euris)).hasNode
          (MergedId.euris c.foreign_node) = true := by
        rw [hasNode_foldl_connectionStep]
        exact Or.inr ⟨c, hc, Or.inr rfl⟩
      have hnone : (conns.foldl connectionStep (merge_base fis euris)).nodeAttrs
          (MergedId.euris c.foreign_node) = none := by rw [h, hb]
      rw [(Graph.nodeAttrs_eq_none_iff _ _).1 hnone] at hnode
      exact absurd hnode (by simp)
    · exact h2

def fisC10 : Graph Int := ⟨[(22637860, [("x", Val.rat 1)])], []⟩

def connsC10 : List Connection :=
  [⟨"DE9", "DE", "NL9", 22637860, 7, "geometric", [("objectname", Val.str "Rhine")]⟩]

theorem merge_graphs_connection_edges_witness :
    (merge_graphs fisC10 (Graph.empty String) connsC10).hasEdge
      (MergedId.fis 22637860) (MergedId.euris "DE9") = true ∧
    (merge_base fisC10 (Graph.empty String)).hasNode (MergedId.fis 22637860) = false ∧
    (merge_graphs fisC10 (Graph.empty String) connsC10).nodeAttrs
      (MergedId.fis 22637860) = some [] := by
  have h := merge_graphs_connection_edges fisC10 (Graph.empty String) connsC10
    ⟨"DE9", "DE", "NL9", 22637860, 7, "geometric", [("objectname", Val.str "Rhine")]⟩
    (by decide)
  exact ⟨h.1, by decide, h.2.1 (by decide)⟩

/-!
### `validation.py`: statistics and border integrity

`GraphValidator.check_statistics` (validation.py lines 31-72) tallies node
and edge counts per `data_source` tag with
`counts[src] = counts.get(src, 0) + 1`, defaulting absent tags to the
further category `"unknown"`.
-/

/-- `d.get("data_source", "unknown")`. -/
def sourceTag (a : Attrs) : Val := (Attrs.get a "data_source").getD (Val.str "unknown")

/-- `counts[src] = counts.get(src, 0) + 1` on a Python dict. -/
def bumpCount (counts : List (Val × Nat)) (k : Val) : List (Val × Nat) :=
  updateOne counts k ((lookupA counts k).getD 0 + 1)

/-- Per-source node counts (validation.py lines 36-39). -/
def nodes_by_source {α : Type} (g : Graph α) : List (Val × Nat) :=
  g.nodes.foldl (fun counts p => bumpCount counts (sourceTag p.2)) []

/-- Per-source edge counts (validation.py lines 42-46). -/
def edges_by_source {α : Type} (g : Graph α) : List (Val × Nat) :=
  g.edges.foldl (fun counts e => bumpCount counts (sourceTag e.2.2)) []

/-- Sum of the tallies of a counts dict. -/
def sumCounts (counts : List (Val × Nat)) : Nat := (counts.map Prod.snd).sum

/-- `g.number_of_nodes()`. -/
def total_nodes {α : Type} (g : Graph α) : Nat := g.nodes.length

/-- `g.number_of_edges()`. -/
def total_edges {α : Type} (g : Graph α) : Nat := g.edges.length

theorem keys_updateOne {κ ν : Type} [DecidableEq κ] (l : List (κ × ν)) (k : κ) (v : ν) :
    (updateOne l k v).map Prod.fst =
      if l.any (fun p => decide (p.1 = k)) then l.map Prod.fst
      else l.map Prod.fst ++ [k] := by
  unfold updateOne
  split
  · rw [List.map_map]
    refine List.map_congr_left ?_
    intro p _
    by_cases hp : p.1 = k <;> simp [hp, Function.comp]
  · simp

theorem sumCounts_bumpCount (c : List (Val × Nat)) (hnd : (c.map Prod.fst).Nodup)
    (k : Val) :
    sumCounts (bumpCount c k) = sumCounts c + 1 ∧
      ((bumpCount c k).map Prod.fst).Nodup := by
  induction c with
  | nil =>
    constructor
    · rfl
    · simp [bumpCount, updateOne]
  | cons p c ih =>
    rw [List.map_cons, List.nodup_cons] at hnd
    by_cases hk : p.1 = k
    · have hlook : lookupA (p :: c) k = some p.2 := by
        rw [lookupA_cons, if_pos hk]
      have hany : (p :: c).any (fun q => decide (q.1 = k)) = true := by
        simp [hk]
      have hmapc : ∀ w : Val × Nat, c.map (fun q => if q.1 = k then w else q) = c := by
        intro w
        refine List.map_congr_left ?_ |>.trans (List.map_id c)
        intro q hq
        have hqk : ¬q.1 = k := by
          intro h
          apply hnd.1
          rw [hk, ← h]
          exact List.mem_map_of_mem Prod.fst hq
        simp [hqk]
      constructor
      · unfold bumpCount updateOne
        rw [if_pos hany, List.map_cons, if_pos hk, hlook]
        unfold sumCounts
        rw [List.map_cons, hmapc, List.map_cons, List.sum_cons, List.sum_cons]
        simp only [Option.getD_some]
        omega
      · unfold bumpCount updateOne
        rw [if_pos hany, List.map_cons, if_pos hk, hmapc, List.map_cons]
        rw [List.nodup_cons]
        refine ⟨?_, hnd.2⟩
        rw [← hk]
        exact hnd.1
    · have hstep : bumpCount (p :: c) k = p :: bumpCount c k := by
        unfold bumpCount updateOne
        rw [lookupA_cons, if_neg hk]
        by_cases hany : c.any (fun q => decide (q.1 = k)) = true
        · rw [if_pos (by simp [hany]), if_pos hany, List.map_cons, if_neg hk]
        · rw [if_neg (by simp [hany, hk]), if_neg hany, List.cons_append]
      obtain ⟨ihs, ihn⟩ := ih hnd.2
      constructor
      · rw [hstep]
        unfold sumCounts at *
        rw [List.map_cons, List.map_cons, List.sum_cons, List.sum_cons, ihs]
        omega
      · rw [hstep, List.map_cons, List.nodup_cons]
        refine ⟨?_, ihn⟩
        intro hmem
        have hsub : ∀ x ∈ (bumpCount c k).map Prod.fst,
            x ∈ c.map Prod.fst ∨ x = k := by
          intro x hx
          unfold bumpCount at hx
          rw [keys_updateOne] at hx
          split at hx
          · exact Or.inl hx
          · rcases List.mem_append.1 hx with h | h
            · exact Or.inl h
            · exact Or.inr (by simpa using h)
        rcases hsub p.1 hmem with h | h
        · exact hnd.1 h
        · exact hk h

theorem sumCounts_foldl_bump {β : Type} (f : β → Val) (l : List β)
    (c : List (Val × Nat)) (hnd : (c.map Prod.fst).Nodup) :
    sumCounts (l.foldl (fun counts b => bumpCount counts (f b)) c) =
      sumCounts c + l.length ∧
    ((l.foldl (fun counts b => bumpCount counts (f b)) c).map Prod.fst).Nodup := by
  induction l generalizing c with
  | nil => exact ⟨rfl, hnd⟩
  | cons b l ih =>
    rw [List.foldl_cons]
    obtain ⟨hs, hn⟩ := sumCounts_bumpCount c hnd (f b)
    obtain ⟨ihs, ihn⟩ := ih (bumpCount c (f b)) hn
    refine ⟨?_, ihn⟩
    rw [ihs, hs, List.length_cons]
    omega

theorem sumCounts_nodes_by_source {α : Type} (g : Graph α) :
    sumCounts (nodes_by_source g) = total_nodes g := by
  have h := sumCounts_foldl_bump (fun p : α × Attrs => sourceTag p.2) g.nodes []
    (by simp)
  simpa [nodes_by_source, total_nodes, sumCounts] using h.1

theorem sumCounts_edges_by_source {α : Type} (g : Graph α) :
    sumCounts (edges_by_source g) = total_edges g := by
  have h := sumCounts_foldl_bump (fun e : α × α × Attrs => sourceTag e.2.2) g.edges []
    (by simp)
  simpa [edges_by_source, total_edges, sumCounts] using h.1

/-- C5: on every graph produced by `merge_graphs`, the per-`data_source`
node tallies of the statistics check (absent tags counted under the extra
`"unknown"` category) sum to the total node count, and likewise for edges:
each node and edge is counted in exactly one category. -/
theorem check_statistics_partition (fis : Graph Int) (euris : Graph String)
    (conns : List Connection) :
    sumCounts (nodes_by_source (merge_graphs fis euris conns)) =
      total_nodes (merge_graphs fis euris conns) ∧
    sumCounts (edges_by_source (merge_graphs fis euris conns)) =
      total_edges (merge_graphs fis euris conns) :=
  ⟨sumCounts_nodes_by_source _, sumCounts_edges_by_source _⟩

/-- The gap distance read off a border edge:
`d.get("distance_gap", 0.0)` (validation.py line 89).  The merged graph
stores a float there; a present non-numeric value would raise `TypeError`
at the comparison in Python and is modelled by the default. -/
def toGap (o : Option Val) : ℚ :=
  match o with
  | some (Val.rat q) => q
  | some (Val.int n) => (n : ℚ)
  | _ => 0

/-- The BORDER-tagged edges of the graph (validation.py lines 78-81). -/
def borderEdges (g : Graph MergedId) : List (MergedId × MergedId × Attrs) :=
  g.edges.filter (fun e => decide (Attrs.get e.2.2 "data_source" = some (Val.str "BORDER")))

/-- The `min_gap` computed by the loop of `check_border_integrity`
(validation.py lines 85-94) and then dropped: it appears in no key of the
returned dict.  The float `inf` initialisation for a nonempty edge list is
equivalent to starting the minimisation from the first gap. -/
def border_min_gap (g : Graph MergedId) : ℚ :=
  match (borderEdges g).map (fun e => toGap (Attrs.get e.2.2 "distance_gap")) with
  | [] => 0
  | d :: rest => rest.foldl (fun m x => if x < m then x else m) d

/-- The dict returned by `check_border_integrity` (validation.py lines
96-103), with the scalar entries in source order in `fields` and the
`connections` list of sub-dicts split into its own component. -/
structure BorderIntegrityReport where
  fields : List (String × Val)
  connections : List (MergedId × MergedId × Option Val)
deriving DecidableEq

/-- `GraphValidator.check_border_integrity` (validation.py lines 74-105). -/
def check_border_integrity (g : Graph MergedId) : BorderIntegrityReport :=
  let border_edges := borderEdges g
  let gaps := border_edges.map (fun e => toGap (Attrs.get e.2.2 "distance_gap"))
  let max_gap := gaps.foldl (fun m d => if m < d then d else m) 0
  { fields :=
      [("total_connections", Val.int border_edges.length),
       ("expected_connections", Val.int 14),
       ("status", Val.str (if 14 ≤ border_edges.length then "PASS" else "WARNING")),
       ("max_gap_meters", Val.rat max_gap),
       ("avg_gap_meters",
        Val.rat (if gaps.length = 0 then 0 else gaps.sum / (gaps.length : ℚ)))],
    connections := border_edges.map (fun e => (e.1, e.2.1, Attrs.get e.2.2 "distance_gap")) }

/-- A merged-style graph with two BORDER edges (gaps 3 and 7) and one FIS
edge, exhibiting the dropped minimum. -/
def gBug : Graph MergedId :=
  ⟨[(MergedId.fis 1, []), (MergedId.fis 2, []),
    (MergedId.euris "A", []), (MergedId.euris "B", [])],
   [(MergedId.fis 1, MergedId.euris "A",
      [("data_source", Val.str "BORDER"), ("distance_gap", Val.rat 7)]),
    (MergedId.fis 1, MergedId.euris "B",
      [("data_source", Val.str "BORDER"), ("distance_gap", Val.rat 3)]),
    (MergedId.fis 1, MergedId.fis 2, [("data_source", Val.str "FIS")])]⟩

/-- C7 (code bug): the report of the border-integrity check carries the
BORDER-edge count against the baseline 14, a PASS/WARNING status and the
maximum and average gap - but no minimum: the loop computes `min_gap`
(here `border_min_gap`) and the returned dict never includes it. -/
theorem check_border_integrity_missing_min :
    (check_border_integrity gBug).fields.map Prod.fst =
      ["total_connections", "expected_connections", "status",
       "max_gap_meters", "avg_gap_meters"] ∧
    "min_gap_meters" ∉ (check_border_integrity gBug).fields.map Prod.fst ∧
    border_min_gap gBug = 3 ∧
    lookupA (check_border_integrity gBug).fields "total_connections" =
      some (Val.int 2) ∧
    lookupA (check_border_integrity gBug).fields "status" =
      some (Val.str "WARNING") ∧
    lookupA (check_border_integrity gBug).fields "max_gap_meters" =
      some (Val.rat 7) ∧
    lookupA (check_border_integrity gBug).fields "avg_gap_meters" =
      some (Val.rat 5) := by
  refine ⟨rfl, by decide, by decide, by decide, by decide, by decide, ?_⟩
  have hlook : lookupA (check_border_integrity gBug).fields "avg_gap_meters" =
      some (Val.rat
        (if ((borderEdges gBug).map
            (fun e => toGap (Attrs.get e.2.2 "distance_gap"))).length = 0 then 0
         else ((borderEdges gBug).map
            (fun e => toGap (Attrs.get e.2.2 "distance_gap"))).sum /
          (((borderEdges gBug).map
            (fun e => toGap (Attrs.get e.2.2 "distance_gap"))).length : ℚ))) := rfl
  rw [hlook]
  have hgaps : (borderEdges gBug).map (fun e => toGap (Attrs.get e.2.2 "distance_gap")) =
      [7, 3] := by decide
  rw [hgaps]
  norm_num

/-!
### `build.py`: SectionGraphBuilder

A section row carries its `Id`, the two (nullable) junction references and
the remaining dataframe columns - descriptive attributes and the geometry
derived columns (`geometry_wkt`) - abstracted as `attrs`.  `build_graph`
renames the junction columns to source/target and feeds every remaining
column to `nx.from_pandas_edgelist(..., edge_attr=True)`, which per row is
an `add_edge` with all those columns. -/
structure SectionRec where
  id : Int
  startJunctionId : Option Int
  endJunctionId : Option Int
  attrs : Attrs
deriving DecidableEq

/-- A junction row: `Id` plus its remaining columns. -/
structure JunctionRec where
  id : Int
  attrs : Attrs
deriving DecidableEq

/-- `filter_sections` (build.py lines 13-37): keep rows with both junction
ids present (the int cast leaves the already-integral ids unchanged). -/
def filter_sections (sections : List SectionRec) : List SectionRec :=
  sections.filter (fun s => s.startJunctionId.isSome && s.endJunctionId.isSome)

/-- `filter_junctions` (build.py lines 40-62): keep junctions whose `Id` is
referenced as an endpoint by some retained section. -/
def filter_junctions (junctions : List JunctionRec) (sections : List SectionRec) :
    List JunctionRec :=
  junctions.filter (fun j => sections.any (fun s =>
    decide (s.startJunctionId = some j.id) || decide (s.endJunctionId = some j.id)))

/-- The edge attribute dict of one section row under `edge_attr=True`: every
column except source/target, the `Id` first. -/
def sectionEdgeAttrs (s : SectionRec) : Attrs := ("Id", Val.int s.id) :: s.attrs

/-- One row of `nx.from_pandas_edgelist` (build.py lines 92-94). -/
def sectionStep (g : Graph Int) (s : SectionRec) : Graph Int :=
  match s.startJunctionId, s.endJunctionId with
  | some u, some v => g.addEdge u v (sectionEdgeAttrs s)
  | _, _ => g

/-- `build_graph` (build.py lines 65-119): filter, build the edge list
graph, then attach junction columns to matching nodes
(`set_index("Id").to_dict("index")` keeps the last row per id; the
geometry-to-wkt/x/y derivation is abstracted into the junction `attrs`). -/
def build_graph (sections : List SectionRec) (junctions : List JunctionRec) :
    Graph Int × List SectionRec × List JunctionRec :=
  let fs := filter_sections sections
  let fj := filter_junctions junctions fs
  let g0 := fs.foldl sectionStep (Graph.empty Int)
  let jd := fj.foldl (fun m j => updateOne m j.id j.attrs) ([] : List (Int × Attrs))
  let g1 : Graph Int :=
    { g0 with
      nodes := g0.nodes.map (fun p =>
        match lookupA jd p.1 with
        | some a => (p.1, p.2.update a)
        | none => p) }
  (g1, fs, fj)

theorem sectionStep_some (g : Graph Int) (s : SectionRec) {u v : Int}
    (hu : s.startJunctionId = some u) (hv : s.endJunctionId = some v) :
    sectionStep g s = g.addEdge u v (sectionEdgeAttrs s) := by
  unfold sectionStep
  rw [hu, hv]

theorem pairMatch_swap {α : Type} [DecidableEq α] (u v x y : α) :
    pairMatch u v x y = pairMatch u v y x := by
  rcases h : pairMatch u v y x with _ | _
  · rw [Bool.eq_false_iff] at h ⊢
    intro hc
    apply h
    rw [pairMatch_iff] at hc ⊢
    tauto
  · rw [pairMatch_iff] at h ⊢
    tauto

theorem Graph.hasEdge_symm {α : Type} [DecidableEq α] (g : Graph α) (x y : α) :
    g.hasEdge x y = g.hasEdge y x := by
  unfold Graph.hasEdge
  congr 1
  funext e
  rw [pairMatch_swap]

theorem edges_build_graph (sections : List SectionRec) (junctions : List JunctionRec) :
    (build_graph sections junctions).1.edges =
      ((filter_sections sections).foldl sectionStep (Graph.empty Int)).edges := rfl

theorem hasEdge_foldl_sectionStep_mono (l : List SectionRec) (g : Graph Int)
    {x y : Int} (h : g.hasEdge x y = true) :
    (l.foldl sectionStep g).hasEdge x y = true := by
  induction l generalizing g with
  | nil => exact h
  | cons s l ih =>
    rw [List.foldl_cons]
    refine ih _ ?_
    unfold sectionStep
    split
    · rw [Graph.hasEdge_addEdge, h]
      rfl
    · exact h

theorem hasEdge_foldl_sectionStep_of_mem (l : List SectionRec) (g : Graph Int)
    {s : SectionRec} {u v : Int} (hs : s ∈ l)
    (hu : s.startJunctionId = some u) (hv : s.endJunctionId = some v) :
    (l.foldl sectionStep g).hasEdge u v = true := by
  induction l generalizing g with
  | nil => simp at hs
  | cons t l ih =>
    rw [List.foldl_cons]
    rcases List.mem_cons.1 hs with rfl | hs2
    · refine hasEdge_foldl_sectionStep_mono l _ ?_
      rw [sectionStep_some g s hu hv, Graph.hasEdge_addEdge, pairMatch_refl]
      simp
    · exact ih _ hs2

theorem Graph.edgeAttrs_eq_none_iff {α : Type} [DecidableEq α] (g : Graph α) (x y : α) :
    g.edgeAttrs x y = none ↔ g.hasEdge x y = false := by
  unfold Graph.edgeAttrs Graph.hasEdge
  constructor
  · intro h
    rw [List.any_eq_false]
    intro e he
    cases hfind : g.edges.find? (fun e => pairMatch e.1 e.2.1 x y) with
    | none =>
      rw [List.find?_eq_none] at hfind
      simpa using hfind e he
    | some q => rw [hfind] at h; simp at h
  · intro h
    cases hfind : g.edges.find? (fun e => pairMatch e.1 e.2.1 x y) with
    | none => rfl
    | some q =>
      have hq := List.find?_some hfind
      have hqm := List.mem_of_find?_eq_some hfind
      rw [List.any_eq_false] at h
      exact absurd (by simpa using hq) (h q hqm)

/-- Once the `(u, v)` edge holds exactly the attributes of section `s`, and
every later section with that unordered pair is `s` itself, the attributes
survive the rest of the fold (re-adding `s` is an idempotent dict update). -/
theorem edgeAttrs_foldl_sectionStep_preserve (l : List SectionRec) (g : Graph Int)
    {s : SectionRec} {u v : Int}
    (hattr : g.edgeAttrs u v = some (sectionEdgeAttrs s))
    (huniq : ∀ t ∈ l, ∀ a b, t.startJunctionId = some a → t.endJunctionId = some b →
      pairMatch a b u v = true → t = s)
    (hknodup : ((sectionEdgeAttrs s).map Prod.fst).Nodup) :
    (l.foldl sectionStep g).edgeAttrs u v = some (sectionEdgeAttrs s) := by
  induction l generalizing g with
  | nil => exact hattr
  | cons t l ih =>
    rw [List.foldl_cons]
    have huniq2 : ∀ t2 ∈ l, ∀ a b, t2.startJunctionId = some a →
        t2.endJunctionId = some b → pairMatch a b u v = true → t2 = s := by
      intro t2 ht2 a b ha hb hm
      exact huniq t2 (List.mem_cons_of_mem t ht2) a b ha hb hm
    rcases ha : t.startJunctionId with _ | a
    · have hstep : sectionStep g t = g := by
        unfold sectionStep
        rw [ha]
      rw [hstep]
      exact ih g hattr huniq2
    · rcases hb : t.endJunctionId with _ | b
      · have hstep : sectionStep g t = g := by
          unfold sectionStep
          rw [ha, hb]
        rw [hstep]
        exact ih g hattr huniq2
      · rw [sectionStep_some g t ha hb]
        by_cases hpm : pairMatch a b u v = true
        · have hts : t = s := huniq t (List.mem_cons_self t l) a b ha hb hpm
          have hedge : g.hasEdge u v = true := by
            rcases hE : g.hasEdge u v with _ | _
            · rw [(Graph.edgeAttrs_eq_none_iff g u v).2 hE] at hattr
              exact absurd hattr (by simp)
            · rfl
          refine ih _ ?_ huniq2
          rw [Graph.edgeAttrs_addEdge_same_old g a b _ u v hedge hpm, hattr]
          have hupd : (sectionEdgeAttrs s).update (sectionEdgeAttrs t) =
              sectionEdgeAttrs s := by
            rw [hts]
            unfold Attrs.update updateAll
            have hfold : ∀ e2 a2 : Attrs, (∀ p ∈ e2, p ∈ a2) → (a2.map Prod.fst).Nodup →
                e2.foldl (fun acc p => updateOne acc p.1 p.2) a2 = a2 := by
              intro e2
              induction e2 with
              | nil => intro a2 _ _; rfl
              | cons p e2 ih2 =>
                intro a2 hsub hnd2
                rw [List.foldl_cons]
                rw [updateOne_self a2 hnd2 (by simpa using hsub p (List.mem_cons_self p e2))]
                exact ih2 a2 (fun q hq => hsub q (List.mem_cons_of_mem p hq)) hnd2
            exact hfold _ _ (fun p hp => hp) hknodup
          show some ((sectionEdgeAttrs s).update (sectionEdgeAttrs t)) =
            some (sectionEdgeAttrs s)
          rw [hupd]
        · refine ih _ ?_ huniq2
          rw [Graph.edgeAttrs_addEdge_other g a b _ u v (by simpa using hpm)]
          exact hattr

theorem edgeAttrs_foldl_sectionStep_unique (l : List SectionRec) (g : Graph Int)
    {s : SectionRec} {u v : Int} (hs : s ∈ l)
    (hu : s.startJunctionId = some u) (hv : s.endJunctionId = some v)
    (huniq : ∀ t ∈ l, ∀ a b, t.startJunctionId = some a → t.endJunctionId = some b →
      pairMatch a b u v = true → t = s)
    (hnew : g.hasEdge u v = false)
    (hknodup : ((sectionEdgeAttrs s).map Prod.fst).Nodup) :
    (l.foldl sectionStep g).edgeAttrs u v = some (sectionEdgeAttrs s) := by
  induction l generalizing g with
  | nil => simp at hs
  | cons t l ih =>
    rw [List.foldl_cons]
    have huniq2 : ∀ t2 ∈ l, ∀ a b, t2.startJunctionId = some a →
        t2.endJunctionId = some b → pairMatch a b u v = true → t2 = s := by
      intro t2 ht2 a b ha hb hm
      exact huniq t2 (List.mem_cons_of_mem t ht2) a b ha hb hm
    rcases List.mem_cons.1 hs with rfl | hs2
    · rw [sectionStep_some g s hu hv]
      refine edgeAttrs_foldl_sectionStep_preserve l _ ?_ huniq2 hknodup
      exact Graph.edgeAttrs_addEdge_same_new g u v _ u v hnew (pairMatch_refl u v)
    · rcases ha : t.startJunctionId with _ | a
      · have hstep : sectionStep g t = g := by
          unfold sectionStep
          rw [ha]
        rw [hstep]
        exact ih g hs2 huniq2 hnew
      · rcases hb : t.endJunctionId with _ | b
        · have hstep : sectionStep g t = g := by
            unfold sectionStep
            rw [ha, hb]
          rw [hstep]
          exact ih g hs2 huniq2 hnew
        · rw [sectionStep_some g t ha hb]
          by_cases hpm : pairMatch a b u v = true
          · have hts : t = s := huniq t (List.mem_cons_self t l) a b ha hb hpm
            have hau : a = u := by
              rw [hts] at ha
              rw [ha] at hu
              injection hu
            have hbv : b = v := by
              rw [hts] at hb
              rw [hb] at hv
              injection hv
            refine edgeAttrs_foldl_sectionStep_preserve l _ ?_ huniq2 hknodup
            rw [hau, hbv, hts]
            exact Graph.edgeAttrs_addEdge_same_new g u v _ u v hnew (pairMatch_refl u v)
          · refine ih _ hs2 huniq2 ?_
            rw [Graph.hasEdge_addEdge, hnew, Bool.false_or]
            simpa using hpm

theorem hasEdge_build_graph (sections : List SectionRec) (junctions : List JunctionRec)
    (x y : Int) :
    (build_graph sections junctions).1.hasEdge x y =
      ((filter_sections sections).foldl sectionStep (Graph.empty Int)).hasEdge x y := by
  unfold Graph.hasEdge
  rw [edges_build_graph]

theorem edgeAttrs_build_graph (sections : List SectionRec) (junctions : List JunctionRec)
    (x y : Int) :
    (build_graph sections junctions).1.edgeAttrs x y =
      ((filter_sections sections).foldl sectionStep (Graph.empty Int)).edgeAttrs x y := by
  unfold Graph.edgeAttrs
  rw [edges_build_graph]

/-- C4 (amended): every section with both junction ids present yields an
undirected edge between them; sections missing an endpoint are dropped; the
retained junction table holds exactly the input junctions referenced by a
retained section; and the edge carries the section's attribute columns
provided no other retained section shares the same unordered endpoint pair
(when pairs repeat, the last section's values win - see the
counterexample). -/
theorem build_graph_spec (sections : List SectionRec) (junctions : List JunctionRec) :
    (∀ s ∈ sections, ∀ u v : Int, s.startJunctionId = some u →
        s.endJunctionId = some v →
        (build_graph sections junctions).1.hasEdge u v = true ∧
        (build_graph sections junctions).1.hasEdge v u = true) ∧
    (∀ s : SectionRec, s ∈ filter_sections sections ↔
        s ∈ sections ∧ s.startJunctionId.isSome = true ∧ s.endJunctionId.isSome = true) ∧
    (∀ j : JunctionRec, j ∈ filter_junctions junctions (filter_sections sections) ↔
        j ∈ junctions ∧ ∃ s ∈ filter_sections sections,
          s.startJunctionId = some j.id ∨ s.endJunctionId = some j.id) ∧
    (∀ s ∈ sections, ∀ u v : Int, s.startJunctionId = some u →
        s.endJunctionId = some v →
        (∀ t ∈ filter_sections sections,
          (t.startJunctionId = some u ∧ t.endJunctionId = some v) ∨
          (t.startJunctionId = some v ∧ t.endJunctionId = some u) → t = s) →
        ((sectionEdgeAttrs s).map Prod.fst).Nodup →
        (build_graph sections junctions).1.edgeAttrs u v = some (sectionEdgeAttrs s)) := by
  refine ⟨?_, ?_, ?_, ?_⟩
  · intro s hs u v hu hv
    have hmem : s ∈ filter_sections sections := by
      rw [filter_sections, List.mem_filter]
      exact ⟨hs, by rw [hu, hv]; rfl⟩
    constructor
    · rw [hasEdge_build_graph]
      exact hasEdge_foldl_sectionStep_of_mem _ _ hmem hu hv
    · rw [hasEdge_build_graph, Graph.hasEdge_symm]
      exact hasEdge_foldl_sectionStep_of_mem _ _ hmem hu hv
  · intro s
    rw [filter_sections, List.mem_filter, Bool.and_eq_true]
  · intro j
    rw [filter_junctions, List.mem_filter, List.any_eq_true]
    constructor
    · rintro ⟨hj, s, hs, hor⟩
      rw [Bool.or_eq_true, decide_eq_true_eq, decide_eq_true_eq] at hor
      exact ⟨hj, s, hs, hor⟩
    · rintro ⟨hj, s, hs, hor⟩
      refine ⟨hj, s, hs, ?_⟩
      rw [Bool.or_eq_true, decide_eq_true_eq, decide_eq_true_eq]
      exact hor
  · intro s hs u v hu hv huniq hknodup
    have hmem : s ∈ filter_sections sections := by
      rw [filter_sections, List.mem_filter]
      exact ⟨hs, by rw [hu, hv]; rfl⟩
    rw [edgeAttrs_build_graph]
    refine edgeAttrs_foldl_sectionStep_unique _ _ hmem hu hv ?_ rfl hknodup
    intro t ht a b ha hb hm
    rw [pairMatch_iff] at hm
    refine huniq t ht ?_
    rcases hm with ⟨rfl, rfl⟩ | ⟨rfl, rfl⟩
    · exact Or.inl ⟨ha, hb⟩
    · exact Or.inr ⟨ha, hb⟩

/-- Two sections with the same endpoint pair: the edge keeps only the last
section's attribute values. -/
def sCE1 : SectionRec := ⟨100, some 1, some 2, [("geometry_wkt", Val.str "LINESTRING A")]⟩

def sCE2 : SectionRec := ⟨200, some 1, some 2, [("geometry_wkt", Val.str "LINESTRING B")]⟩

theorem build_graph_duplicate_pair_counterexample :
    sCE1 ∈ [sCE1, sCE2] ∧ sCE1.startJunctionId = some 1 ∧ sCE1.endJunctionId = some 2 ∧
    ¬(build_graph [sCE1, sCE2] []).1.edgeAttrs 1 2 = some (sectionEdgeAttrs sCE1) ∧
    (build_graph [sCE1, sCE2] []).1.edgeAttrs 1 2 = some (sectionEdgeAttrs sCE2) := by
  refine ⟨by decide, rfl, rfl, by decide, by decide⟩

def sW1 : SectionRec := ⟨10, some 1, some 2, [("geometry_wkt", Val.str "LS")]⟩

def sW2 : SectionRec := ⟨11, some 2, some 3, []⟩

def sWbad : SectionRec := ⟨12, none, some 9, []⟩

def sectionsW : List SectionRec := [sW1, sW2, sWbad]

def junctionsW : List JunctionRec := [⟨1, [("x", Val.rat 0)]⟩, ⟨2, []⟩, ⟨3, []⟩, ⟨9, []⟩]

theorem build_graph_spec_witness :
    (build_graph sectionsW junctionsW).1.hasEdge 1 2 = true ∧
    (build_graph sectionsW junctionsW).1.hasEdge 2 1 = true ∧
    sWbad ∉ filter_sections sectionsW ∧
    (⟨1, [("x", Val.rat 0)]⟩ : JunctionRec) ∈
      filter_junctions junctionsW (filter_sections sectionsW) ∧
    (⟨9, []⟩ : JunctionRec) ∉ filter_junctions junctionsW (filter_sections sectionsW) ∧
    (build_graph sectionsW junctionsW).1.edgeAttrs 1 2 = some (sectionEdgeAttrs sW1) := by
  have h := build_graph_spec sectionsW junctionsW
  refine ⟨(h.1 sW1 (by decide) 1 2 rfl rfl).1, (h.1 sW1 (by decide) 1 2 rfl rfl).2,
    by decide, ?_, by decide, ?_⟩
  · exact (h.2.2.1 ⟨1, [("x", Val.rat 0)]⟩).2 ⟨by decide, sW1, by decide, Or.inl rfl⟩
  · exact h.2.2.2 sW1 (by decide) 1 2 rfl rfl (by decide) (by decide)

/-!
### `enrich_fis.py`: attribute enrichment

Route/km matching (`match_by_route_km`, lines 89-170) and geometry-key
matching (`match_by_geometry`, lines 43-86), plus the application to graph
edges (`enrich_fis_graph`, lines 241-284).
-/

/-- A raw section row for route/km matching: `Id` plus the three nullable
route columns. -/
structure SectionKmRow where
  id : Int
  routeId : Option Int
  kmBegin : Option ℚ
  kmEnd : Option ℚ
deriving DecidableEq

/-- A section row surviving `dropna(subset=["RouteId", "RouteKmBegin",
"RouteKmEnd"])` (enrich_fis.py line 125). -/
structure SectionKm where
  id : Int
  routeId : Int
  kmBegin : ℚ
  kmEnd : ℚ
deriving DecidableEq

/-- A raw auxiliary row for route/km matching; the payload columns are
`attrs`. -/
structure DataKmRow where
  routeId : Option Int
  kmBegin : Option ℚ
  kmEnd : Option ℚ
  attrs : Attrs
deriving DecidableEq

/-- An auxiliary row surviving `dropna` (enrich_fis.py line 128). -/
structure DataKm where
  routeId : Int
  kmBegin : ℚ
  kmEnd : ℚ
  attrs : Attrs
deriving DecidableEq

def dropnaSections (sections : List SectionKmRow) : List SectionKm :=
  sections.filterMap (fun s =>
    match s.routeId, s.kmBegin, s.kmEnd with
    | some r, some b, some e => some ⟨s.id, r, b, e⟩
    | _, _, _ => none)

def dropnaData (data : List DataKmRow) : List DataKm :=
  data.filterMap (fun d =>
    match d.routeId, d.kmBegin, d.kmEnd with
    | some r, some b, some e => some ⟨r, b, e, d.attrs⟩
    | _, _, _ => none)

/-- The overlap test of `match_by_route_km` (enrich_fis.py lines 137-151):
each `[begin, end]` is first normalised to `[min, max]`, then the ranges
overlap unless one ends strictly before the other begins. -/
def kmOverlap (s : SectionKm) (d : DataKm) : Bool :=
  !(decide (max s.kmBegin s.kmEnd < min d.kmBegin d.kmEnd) ||
    decide (max d.kmBegin d.kmEnd < min s.kmBegin s.kmEnd))

/-- The per-section scan of `match_by_route_km` (enrich_fis.py lines
140-156): `get_group(route_id)` preserves the original row order, and the
`break`-terminated loop takes the first overlapping row of that group. -/
def routeKmFirstMatch (s : SectionKm) (dat : List DataKm) : Option DataKm :=
  (dat.filter (fun d => decide (d.routeId = s.routeId))).find? (fun d => kmOverlap s d)

/-- `result_row[f"{prefix}{col}"] = row[col]` over the selected columns
(enrich_fis.py lines 152-154); a column absent from the row reads as null. -/
def selectCols (pre : String) (cols : List String) (a : Attrs) : Attrs :=
  cols.map (fun c => (pre ++ c, (Attrs.get a c).getD Val.null))

/-- First-wins de-duplication by key (pandas `drop_duplicates`), carrying
the set of keys already seen. -/
def dedupByKey {β κ : Type} [DecidableEq κ] (key : β → κ) :
    List κ → List β → List β
  | _, [] => []
  | seen, b :: rest =>
    if key b ∈ seen then dedupByKey key seen rest
    else b :: dedupByKey key (key b :: seen) rest

/-- `match_by_route_km` (enrich_fis.py lines 89-170): drop incomplete rows,
collect the first overlapping same-route row per section,
`drop_duplicates("Id")` on the collected rows, and reindex over the
distinct retained section ids (unmatched ids read as null rows).  The
missing-column early returns of lines 109-121 are the degenerate paths and
are not modelled. -/
def match_by_route_km (sections : List SectionKmRow) (data : List DataKmRow)
    (cols : List String) (pre : String) : List (Int × Option Attrs) :=
  let secs := dropnaSections sections
  let dat := dropnaData data
  let results : List (Int × Attrs) := secs.filterMap (fun s =>
    (routeKmFirstMatch s dat).map (fun r => (s.id, selectCols pre cols r.attrs)))
  let deduped := dedupByKey Prod.fst [] results
  let allIds := dedupByKey (fun i => i) [] (secs.map (fun s => s.id))
  allIds.map (fun i => (i, lookupA deduped i))

/-- C2: the per-section route/km join picks a row exactly when route ids are
equal and the min/max-normalised km intervals overlap under
`NOT(sectionEnd < otherBegin OR otherEnd < sectionBegin)`; the first
qualifying row in iteration order wins; a match never crosses route ids;
and on one route `[0,5]` overlaps `[3,8]` but not `[6,8]`, direction
reversal being tolerated. -/
theorem match_by_route_km_spec :
    (∀ (s : SectionKm) (dat : List DataKm) (r : DataKm),
        routeKmFirstMatch s dat = some r →
          r ∈ dat ∧ r.routeId = s.routeId ∧ kmOverlap s r = true) ∧
    (∀ (s : SectionKm) (dat : List DataKm),
        routeKmFirstMatch s dat = none ↔
          ∀ r ∈ dat, r.routeId = s.routeId → kmOverlap s r = false) ∧
    (∀ (s : SectionKm) (dat1 dat2 : List DataKm) (r : DataKm),
        r.routeId = s.routeId → kmOverlap s r = true →
        (∀ d ∈ dat1, d.routeId = s.routeId → kmOverlap s d = false) →
        routeKmFirstMatch s (dat1 ++ r :: dat2) = some r) ∧
    kmOverlap ⟨1, 10, 0, 5⟩ ⟨10, 3, 8, []⟩ = true ∧
    kmOverlap ⟨1, 10, 0, 5⟩ ⟨10, 6, 8, []⟩ = false ∧
    kmOverlap ⟨1, 10, 5, 0⟩ ⟨10, 8, 3, []⟩ = true := by
  refine ⟨?_, ?_, ?_, by decide, by decide, by decide⟩
  · intro s dat r h
    have hmem := List.mem_of_find?_eq_some h
    rw [List.mem_filter] at hmem
    refine ⟨hmem.1, by simpa using hmem.2, ?_⟩
    simpa using List.find?_some h
  · intro s dat
    unfold routeKmFirstMatch
    rw [List.find?_eq_none]
    constructor
    · intro h r hr hroute
      have : r ∈ dat.filter (fun d => decide (d.routeId = s.routeId)) := by
        rw [List.mem_filter]
        exact ⟨hr, by simpa using hroute⟩
      have := h r this
      simpa using this
    · intro h r hr
      rw [List.mem_filter] at hr
      have := h r hr.1 (by simpa using hr.2)
      simp [this]
  · intro s dat1 dat2 r hroute hov hnone
    unfold routeKmFirstMatch
    rw [List.filter_append, List.find?_append]
    have h1 : (dat1.filter (fun d => decide (d.routeId = s.routeId))).find?
        (fun d => kmOverlap s d) = none := by
      rw [List.find?_eq_none]
      intro d hd
      rw [List.mem_filter] at hd
      have := hnone d hd.1 (by simpa using hd.2)
      simp [this]
    rw [h1]
    have h2 : (r :: dat2).filter (fun d => decide (d.routeId = s.routeId)) =
        r :: dat2.filter (fun d => decide (d.routeId = s.routeId)) := by
      rw [List.filter_cons]
      simp [hroute]
    rw [h2]
    rw [List.find?_cons_of_pos _ (by simpa using hov)]
    rfl

def sKmW : SectionKm := ⟨1, 10, 0, 5⟩

def dKmW1 : DataKm := ⟨11, 0, 5, [("Speed", Val.int 9)]⟩

def dKmW2 : DataKm := ⟨10, 6, 8, [("Speed", Val.int 12)]⟩

def dKmW3 : DataKm := ⟨10, 3, 8, [("Speed", Val.int 16)]⟩

def dKmW4 : DataKm := ⟨10, 4, 9, [("Speed", Val.int 20)]⟩

theorem match_by_route_km_spec_witness :
    routeKmFirstMatch sKmW ([dKmW1, dKmW2] ++ dKmW3 :: [dKmW4]) = some dKmW3 :=
  match_by_route_km_spec.2.2.1 sKmW [dKmW1, dKmW2] [dKmW4] dKmW3
    (by decide) (by decide) (by decide)

/-- A section row for geometry matching: `Id` and the canonical geometry
text `_geom_key` (`geometry.wkt`, enrich_fis.py line 69). -/
structure SecGeom where
  id : Int
  geomKey : String
deriving DecidableEq

/-- An auxiliary row for geometry matching: its `_geom_key` and the selected
payload columns. -/
structure GeomRow where
  geomKey : String
  attrs : Attrs
deriving DecidableEq

/-- `match_by_geometry` (enrich_fis.py lines 43-86): select and rename the
payload columns, `drop_duplicates("_geom_key")` keeping the first row per
key, then left-join the sections on the key (the de-duplicated right table
has unique keys, so the left join is a per-section lookup). -/
def match_by_geometry (sections : List SecGeom) (data : List GeomRow)
    (cols : List String) (pre : String) : List (Int × Option Attrs) :=
  let data_select := dedupByKey (fun d => d.geomKey) []
    (data.map (fun d => GeomRow.mk d.geomKey (selectCols pre cols d.attrs)))
  sections.map (fun s =>
    (s.id, (data_select.find? (fun d => decide (d.geomKey = s.geomKey))).map
      (fun d => d.attrs)))

theorem find?_dedupByKey {β κ : Type} [DecidableEq κ] (key : β → κ) (seen : List κ)
    (l : List β) (k : κ) :
    (dedupByKey key seen l).find? (fun b => decide (key b = k)) =
      if k ∈ seen then none else l.find? (fun b => decide (key b = k)) := by
  induction l generalizing seen with
  | nil =>
    simp only [dedupByKey, List.find?_nil]
    split <;> rfl
  | cons b l ih =>
    simp only [dedupByKey]
    by_cases hb : key b ∈ seen
    · rw [if_pos hb, ih]
      by_cases hk : k ∈ seen
      · rw [if_pos hk, if_pos hk]
      · rw [if_neg hk, if_neg hk]
        have hbk : ¬key b = k := by
          intro h
          rw [h] at hb
          exact hk hb
        rw [List.find?_cons_of_neg _ (by simpa using hbk)]
    · rw [if_neg hb]
      by_cases hbk : key b = k
      · have hk : ¬k ∈ seen := by
          intro h
          rw [← hbk] at h
          exact hb h
        rw [if_neg hk]
        rw [List.find?_cons_of_pos _ (by simpa using hbk),
          List.find?_cons_of_pos _ (by simpa using hbk)]
      · rw [List.find?_cons_of_neg _ (by simpa using hbk), ih]
        by_cases hk : k ∈ seen
        · rw [if_pos (List.mem_cons_of_mem _ hk), if_pos hk]
        · have hk2 : ¬k ∈ key b :: seen := by
            rw [List.mem_cons]
            rintro (h | h)
            · exact hbk h.symm
            · exact hk h
          rw [if_neg hk2, if_neg hk, List.find?_cons_of_neg _ (by simpa using hbk)]

/-- Under duplicate-free keys, a first-match key search finds exactly the
member with that key. -/
theorem find?_key_eq_some_iff {β κ : Type} [DecidableEq κ] (key : β → κ)
    (l : List β) (hnd : (l.map key).Nodup) (k : κ) (r : β) :
    l.find? (fun b => decide (key b = k)) = some r ↔ r ∈ l ∧ key r = k := by
  constructor
  · intro h
    exact ⟨List.mem_of_find?_eq_some h, by simpa using List.find?_some h⟩
  · rintro ⟨hr, hk⟩
    induction l with
    | nil => simp at hr
    | cons b l ih =>
      rw [List.map_cons, List.nodup_cons] at hnd
      rcases List.mem_cons.1 hr with rfl | hr2
      · rw [List.find?_cons_of_pos _ (by simpa using hk)]
      · by_cases hbk : key b = k
        · exfalso
          apply hnd.1
          rw [hbk, ← hk]
          exact List.mem_map_of_mem key hr2
        · rw [List.find?_cons_of_neg _ (by simpa using hbk)]
          exact ih hnd.2 hr2

/-- First-match key search is invariant under permutation when keys are
duplicate-free. -/
theorem find?_key_perm {β κ : Type} [DecidableEq κ] (key : β → κ)
    {l1 l2 : List β} (hperm : l1.Perm l2) (hnd : (l1.map key).Nodup) (k : κ) :
    l1.find? (fun b => decide (key b = k)) = l2.find? (fun b => decide (key b = k)) := by
  have hnd2 : (l2.map key).Nodup := (hperm.map key).nodup_iff.1 hnd
  cases h : l1.find? (fun b => decide (key b = k)) with
  | none =>
    rw [List.find?_eq_none] at h
    symm
    rw [List.find?_eq_none]
    intro b hb
    exact h b (hperm.mem_iff.2 hb)
  | some r =>
    rw [find?_key_eq_some_iff key l1 hnd k r] at h
    symm
    rw [find?_key_eq_some_iff key l2 hnd2 k r]
    exact ⟨hperm.mem_iff.1 h.1, h.2⟩

/-- The de-duplicated, column-selected lookup of `match_by_geometry` equals
a first-match search over the original auxiliary rows. -/
theorem match_by_geometry_eq_first (sections : List SecGeom) (data : List GeomRow)
    (cols : List String) (pre : String) :
    match_by_geometry sections data cols pre =
      sections.map (fun s =>
        (s.id, (data.find? (fun d => decide (d.geomKey = s.geomKey))).map
          (fun d => selectCols pre cols d.attrs))) := by
  unfold match_by_geometry
  refine List.map_congr_left ?_
  intro s _
  have hfind : (dedupByKey (fun d : GeomRow => d.geomKey) []
      (data.map (fun d => GeomRow.mk d.geomKey (selectCols pre cols d.attrs)))).find?
        (fun d => decide (d.geomKey = s.geomKey)) =
      (data.map (fun d => GeomRow.mk d.geomKey (selectCols pre cols d.attrs))).find?
        (fun d => decide (d.geomKey = s.geomKey)) := by
    have h := find?_dedupByKey (fun d : GeomRow => d.geomKey) []
      (data.map (fun d => GeomRow.mk d.geomKey (selectCols pre cols d.attrs))) s.geomKey
    simpa using h
  rw [hfind]
  rw [List.find?_map]
  have hpred : ((fun d : GeomRow => decide (d.geomKey = s.geomKey)) ∘
      fun d : GeomRow => GeomRow.mk d.geomKey (selectCols pre cols d.attrs)) =
      (fun d : GeomRow => decide (d.geomKey = s.geomKey)) := by
    funext d
    rfl
  rw [hpred, Option.map_map]
  rfl

/-- C6 (amended): geometry-key matching is independent of auxiliary row
order provided no two auxiliary rows share a geometry key; and in general
exactly the first auxiliary row (in the given order) with a section's key
supplies that section's joined attributes. -/
theorem match_by_geometry_spec :
    (∀ (sections : List SecGeom) (d1 d2 : List GeomRow) (cols : List String)
        (pre : String), d1.Perm d2 → (d1.map GeomRow.geomKey).Nodup →
        match_by_geometry sections d1 cols pre = match_by_geometry sections d2 cols pre) ∧
    (∀ (sections : List SecGeom) (data : List GeomRow) (cols : List String)
        (pre : String) (s : SecGeom), s ∈ sections →
        (s.id, (data.find? (fun d => decide (d.geomKey = s.geomKey))).map
          (fun d => selectCols pre cols d.attrs)) ∈
            match_by_geometry sections data cols pre) := by
  constructor
  · intro sections d1 d2 cols pre hperm hnd
    rw [match_by_geometry_eq_first, match_by_geometry_eq_first]
    refine List.map_congr_left ?_
    intro s _
    rw [find?_key_perm GeomRow.geomKey hperm hnd s.geomKey]
  · intro sections data cols pre s hs
    rw [match_by_geometry_eq_first]
    exact List.mem_map_of_mem _ hs

def gRow1 : GeomRow := ⟨"P", [("Code", Val.str "I")]⟩

def gRow2 : GeomRow := ⟨"P", [("Code", Val.str "II")]⟩

def gRow3 : GeomRow := ⟨"Q", [("Code", Val.str "III")]⟩

/-- Two auxiliary rows share the geometry key `"P"` with different values:
swapping them changes the join result, so order independence fails as
claimed without the distinct-keys proviso. -/
theorem match_by_geometry_order_counterexample :
    ¬match_by_geometry [⟨7, "P"⟩] [gRow1, gRow2] ["Code"] "nav_" =
      match_by_geometry [⟨7, "P"⟩] [gRow2, gRow1] ["Code"] "nav_" := by decide

theorem match_by_geometry_spec_witness :
    match_by_geometry [⟨7, "P"⟩] [gRow1, gRow3] ["Code"] "nav_" =
      match_by_geometry [⟨7, "P"⟩] [gRow3, gRow1] ["Code"] "nav_" ∧
    ((7 : Int), some [("nav_Code", Val.str "I")]) ∈
      match_by_geometry [⟨7, "P"⟩] [gRow1, gRow2] ["Code"] "nav_" := by
  constructor
  · exact match_by_geometry_spec.1 [⟨7, "P"⟩] [gRow1, gRow3] [gRow3, gRow1] ["Code"]
      "nav_" (List.Perm.swap gRow3 gRow1 []) (by decide)
  · have h := match_by_geometry_spec.2 [⟨7, "P"⟩] [gRow1, gRow2] ["Code"] "nav_"
      ⟨7, "P"⟩ (by decide)
    simpa using h

/-- `section_lookup` (enrich_fis.py lines 257-264): sections with both
junction ids, as `(Id, start, end)`. -/
def section_lookup (sections : List SectionRec) : List (Int × Int × Int) :=
  sections.filterMap (fun s =>
    match s.startJunctionId, s.endJunctionId with
    | some u, some v => some (s.id, u, v)
    | _, _ => none)

/-- `edge_to_section` (enrich_fis.py lines 266-269): the merged Python dict
`{**forward, **backward}` - both comprehensions insert left to right with
later keys overwriting, and the backward entries overwrite the forward
ones. -/
def edge_to_section (sections : List SectionRec) : List ((Int × Int) × Int) :=
  let sl := section_lookup sections
  let fwd := sl.foldl (fun m r => updateOne m (r.2.1, r.2.2) r.1) []
  sl.foldl (fun m r => updateOne m (r.2.2, r.2.1) r.1) fwd

/-- The per-edge body of the enrichment loop (enrich_fis.py lines 275-281):
resolve the endpoint pair to a section id, look the id up in the enrichment
index (the guard `section_id is not None and section_id in enrichment.index`
is the bind), drop the null entries (`dropna`) and update the edge dict in
place. -/
def enrich_edge (lookup : List ((Int × Int) × Int)) (enrichment : List (Int × Attrs))
    (e : Int × Int × Attrs) : Int × Int × Attrs :=
  match (lookupA lookup (e.1, e.2.1)).bind (fun sid => lookupA enrichment sid) with
  | some ea =>
    (e.1, e.2.1, e.2.2.update (ea.filter (fun p => !decide (p.2 = Val.null))))
  | none => e

theorem enrich_edge_unmatched (lookup : List ((Int × Int) × Int))
    (enrichment : List (Int × Attrs)) (e : Int × Int × Attrs)
    (h : (lookupA lookup (e.1, e.2.1)).bind (fun sid => lookupA enrichment sid) = none) :
    enrich_edge lookup enrichment e = e := by
  unfold enrich_edge
  rw [h]

theorem enrich_edge_matched (lookup : List ((Int × Int) × Int))
    (enrichment : List (Int × Attrs)) (e : Int × Int × Attrs) (ea : Attrs)
    (h : (lookupA lookup (e.1, e.2.1)).bind (fun sid => lookupA enrichment sid) =
      some ea) :
    enrich_edge lookup enrichment e =
      (e.1, e.2.1, e.2.2.update (ea.filter (fun p => !decide (p.2 = Val.null)))) := by
  unfold enrich_edge
  rw [h]

/-- `enrich_fis_graph` (enrich_fis.py lines 241-284): the edge dicts are
updated in place and the same graph object is returned; nodes are never
touched. -/
def enrich_fis_graph (g : Graph Int) (sections : List SectionRec)
    (enrichment : List (Int × Attrs)) : Graph Int :=
  { g with edges := g.edges.map (enrich_edge (edge_to_section sections) enrichment) }

/-- C9: enrichment changes only the attribute dicts of edges whose endpoint
pair resolves to an enriched section: the node list (ids and attributes) is
unchanged, every edge keeps its endpoints, an edge with no section match or
no enrichment row is unchanged entirely, and a null is never written - a
null can only be read from an edge where it already stood. -/
theorem enrich_fis_graph_frame (g : Graph Int) (sections : List SectionRec)
    (enrichment : List (Int × Attrs)) :
    (enrich_fis_graph g sections enrichment).nodes = g.nodes ∧
    List.Forall₂ (fun e e2 : Int × Int × Attrs =>
        e2.1 = e.1 ∧ e2.2.1 = e.2.1 ∧
        (lookupA (edge_to_section sections) (e.1, e.2.1) = none → e2 = e) ∧
        (∀ sid, lookupA (edge_to_section sections) (e.1, e.2.1) = some sid →
          lookupA enrichment sid = none → e2 = e) ∧
        (∀ k, Attrs.get e2.2.2 k = some Val.null → Attrs.get e.2.2 k = some Val.null))
      g.edges (enrich_fis_graph g sections enrichment).edges := by
  refine ⟨rfl, ?_⟩
  have hmap : (enrich_fis_graph g sections enrichment).edges =
      g.edges.map (enrich_edge (edge_to_section sections) enrichment) := rfl
  rw [hmap, List.forall₂_map_right_iff]
  rw [List.forall₂_same]
  intro e _
  cases hbind : (lookupA (edge_to_section sections) (e.1, e.2.1)).bind
      (fun sid => lookupA enrichment sid) with
  | none =>
    rw [enrich_edge_unmatched _ _ _ hbind]
    exact ⟨rfl, rfl, fun _ => rfl, fun _ _ _ => rfl, fun _ h => h⟩
  | some ea =>
    rw [enrich_edge_matched _ _ _ _ hbind]
    refine ⟨rfl, rfl, ?_, ?_, ?_⟩
    · intro h
      rw [h] at hbind
      exact absurd hbind (by simp)
    · intro sid2 h2 h3
      rw [h2] at hbind
      rw [Option.some_bind] at hbind
      rw [h3] at hbind
      exact absurd hbind (by simp)
    · intro k h
      refine lookupA_updateAll_null e.2.2 _ k ?_ h
      intro p hp
      rw [List.mem_filter] at hp
      simpa using hp.2

def gEn : Graph Int :=
  ⟨[(1, [("x", Val.rat 0)]), (2, []), (3, [])],
   [(1, 2, [("Name", Val.str "AB")]), (2, 3, [("Name", Val.str "BC")])]⟩

def sectionsEn : List SectionRec := [⟨50, some 1, some 2, []⟩]

def enrichmentEn : List (Int × Attrs) :=
  [(50, [("speed_Speed", Val.int 9), ("depth_Min", Val.null)])]

theorem enrich_fis_graph_frame_witness :
    (enrich_fis_graph gEn sectionsEn enrichmentEn).nodes = gEn.nodes ∧
    (enrich_fis_graph gEn sectionsEn enrichmentEn).edges =
      [(1, 2, [("Name", Val.str "AB"), ("speed_Speed", Val.int 9)]),
       (2, 3, [("Name", Val.str "BC")])] :=
  ⟨(enrich_fis_graph_frame gEn sectionsEn enrichmentEn).1, by decide⟩

/-- The first collected result row for a section id is exactly that
section's own first match, when section ids are duplicate-free. -/
theorem results_find (secs : List SectionKm) (dat : List DataKm)
    (cols : List String) (pre : String) (hnd : (secs.map SectionKm.id).Nodup)
    {s : SectionKm} (hs : s ∈ secs) :
    (secs.filterMap (fun t => (routeKmFirstMatch t dat).map
        (fun r => (t.id, selectCols pre cols r.attrs)))).find?
          (fun p => decide (p.1 = s.id)) =
      (routeKmFirstMatch s dat).map (fun r => (s.id, selectCols pre cols r.attrs)) := by
  induction secs with
  | nil => simp at hs
  | cons t secs ih =>
    rw [List.map_cons, List.nodup_cons] at hnd
    rcases List.mem_cons.1 hs with rfl | hs2
    · cases hmatch : routeKmFirstMatch s dat with
      | none =>
        rw [List.filterMap_cons_none (by rw [hmatch]; rfl)]
        show _ = (none : Option (Int × Attrs))
        rw [List.find?_eq_none]
        intro p hp
        rw [List.mem_filterMap] at hp
        obtain ⟨t2, ht2, hval⟩ := hp
        have hid : p.1 = t2.id := by
          cases hm2 : routeKmFirstMatch t2 dat with
          | none => rw [hm2] at hval; exact absurd hval (by simp)
          | some r2 =>
            rw [hm2] at hval
            have : (t2.id, selectCols pre cols r2.attrs) = p := by injection hval
            rw [← this]
        have hne : t2.id ≠ s.id := by
          intro h
          apply hnd.1
          rw [← h]
          exact List.mem_map_of_mem SectionKm.id ht2
        rw [hid]
        simpa using hne
      | some r =>
        rw [List.filterMap_cons_some (by rw [hmatch]; rfl)]
        rw [List.find?_cons_of_pos _ (by simp)]
        rfl
    · have htid : t.id ≠ s.id := by
        intro h
        apply hnd.1
        rw [h]
        exact List.mem_map_of_mem SectionKm.id hs2
      cases hmatch : routeKmFirstMatch t dat with
      | none =>
        rw [List.filterMap_cons_none (by rw [hmatch]; rfl)]
        exact ih hnd.2 hs2
      | some r =>
        rw [List.filterMap_cons_some (by rw [hmatch]; rfl)]
        rw [List.find?_cons_of_neg _ (by simpa using htid)]
        exact ih hnd.2 hs2

theorem mem_dedup_id {κ : Type} [DecidableEq κ] (seen l : List κ) (k : κ) :
    k ∈ dedupByKey (fun i => i) seen l ↔ k ∈ l ∧ k ∉ seen := by
  induction l generalizing seen with
  | nil => simp [dedupByKey]
  | cons b l ih =>
    simp only [dedupByKey]
    by_cases hb : b ∈ seen
    · rw [if_pos hb, ih]
      simp only [List.mem_cons]
      constructor
      · rintro ⟨h1, h2⟩
        exact ⟨Or.inr h1, h2⟩
      · rintro ⟨h1 | h1, h2⟩
        · rw [h1] at h2
          exact absurd hb h2
        · exact ⟨h1, h2⟩
    · rw [if_neg hb]
      simp only [List.mem_cons, ih]
      constructor
      · rintro (rfl | ⟨h1, h2⟩)
        · exact ⟨Or.inl rfl, hb⟩
        · exact ⟨Or.inr h1, fun hk => h2 (Or.inr hk)⟩
      · rintro ⟨h1 | h1, h2⟩
        · exact Or.inl h1
        · by_cases hkb : k = b
          · exact Or.inl hkb
          · exact Or.inr ⟨h1, fun h => h.elim hkb h2⟩

/-- C8: unmatched join keys are not errors.  A graph edge whose endpoint
pair resolves to no section passes through enrichment untouched while the
whole batch is still produced (same edge count); and a retained section
whose route id occurs in no auxiliary row comes out of route/km matching
with a null row, while any section with a first match still receives it. -/
theorem enrich_unmatched_not_error :
    (∀ (g : Graph Int) (sections : List SectionRec) (enrichment : List (Int × Attrs)),
      ∀ e ∈ g.edges, lookupA (edge_to_section sections) (e.1, e.2.1) = none →
        e ∈ (enrich_fis_graph g sections enrichment).edges) ∧
    (∀ (g : Graph Int) (sections : List SectionRec) (enrichment : List (Int × Attrs)),
      (enrich_fis_graph g sections enrichment).edges.length = g.edges.length) ∧
    (∀ (sections : List SectionKmRow) (data : List DataKmRow)
        (cols : List String) (pre : String) (s : SectionKm),
      ((dropnaSections sections).map SectionKm.id).Nodup →
      s ∈ dropnaSections sections →
      (∀ d ∈ dropnaData data, d.routeId ≠ s.routeId) →
      (s.id, none) ∈ match_by_route_km sections data cols pre) ∧
    (∀ (sections : List SectionKmRow) (data : List DataKmRow)
        (cols : List String) (pre : String) (s : SectionKm) (r : DataKm),
      ((dropnaSections sections).map SectionKm.id).Nodup →
      s ∈ dropnaSections sections →
      routeKmFirstMatch s (dropnaData data) = some r →
      (s.id, some (selectCols pre cols r.attrs)) ∈
        match_by_route_km sections data cols pre) := by
  have hlookup : ∀ (sections : List SectionKmRow) (data : List DataKmRow)
      (cols : List String) (pre : String) (s : SectionKm),
      ((dropnaSections sections).map SectionKm.id).Nodup →
      s ∈ dropnaSections sections →
      (s.id, lookupA (dedupByKey Prod.fst []
        ((dropnaSections sections).filterMap (fun t =>
          (routeKmFirstMatch t (dropnaData data)).map
            (fun r => (t.id, selectCols pre cols r.attrs))))) s.id) ∈
        match_by_route_km sections data cols pre := by
    intro sections data cols pre s hnd hs
    unfold match_by_route_km
    refine List.mem_map.2 ⟨s.id, ?_, rfl⟩
    rw [mem_dedup_id]
    exact ⟨List.mem_map_of_mem (fun t => t.id) hs, by simp⟩
  have hdedup : ∀ (sections : List SectionKmRow) (data : List DataKmRow)
      (cols : List String) (pre : String) (s : SectionKm),
      ((dropnaSections sections).map SectionKm.id).Nodup →
      s ∈ dropnaSections sections →
      lookupA (dedupByKey Prod.fst []
        ((dropnaSections sections).filterMap (fun t =>
          (routeKmFirstMatch t (dropnaData data)).map
            (fun r => (t.id, selectCols pre cols r.attrs))))) s.id =
      (routeKmFirstMatch s (dropnaData data)).map (fun r => selectCols pre cols r.attrs) := by
    intro sections data cols pre s hnd hs
    unfold lookupA
    have h := find?_dedupByKey (Prod.fst (β := Attrs)) []
      ((dropnaSections sections).filterMap (fun t =>
        (routeKmFirstMatch t (dropnaData data)).map
          (fun r => (t.id, selectCols pre cols r.attrs)))) s.id
    rw [if_neg (by simp)] at h
    have h2 := results_find (dropnaSections sections) (dropnaData data) cols pre hnd hs
    rw [show (fun b : Int × Attrs => decide (b.1 = s.id)) =
      (fun p : Int × Attrs => decide (p.1 = s.id)) from rfl] at h
    rw [h, h2]
    cases routeKmFirstMatch s (dropnaData data) <;> rfl
  refine ⟨?_, ?_, ?_, ?_⟩
  · intro g sections enrichment e he hnone
    have : enrich_edge (edge_to_section sections) enrichment e = e := by
      refine enrich_edge_unmatched _ _ _ ?_
      rw [hnone, Option.none_bind]
    rw [← this]
    exact List.mem_map_of_mem _ he
  · intro g sections enrichment
    exact List.length_map g.edges _
  · intro sections data cols pre s hnd hs hnoroute
    have hmatch : routeKmFirstMatch s (dropnaData data) = none := by
      unfold routeKmFirstMatch
      have : (dropnaData data).filter (fun d => decide (d.routeId = s.routeId)) = [] := by
        rw [List.filter_eq_nil_iff]
        intro d hd
        simpa using hnoroute d hd
      rw [this]
      rfl
    have h := hlookup sections data cols pre s hnd hs
    rw [hdedup sections data cols pre s hnd hs, hmatch] at h
    exact h
  · intro sections data cols pre s r hnd hs hmatch
    have h := hlookup sections data cols pre s hnd hs
    rw [hdedup sections data cols pre s hnd hs, hmatch] at h
    exact h

def sectionsKmW : List SectionKmRow :=
  [⟨1, some 10, some 0, some 5⟩, ⟨2, some 77, some 0, some 5⟩, ⟨3, none, some 0, some 5⟩]

def dataKmW : List DataKmRow :=
  [⟨some 10, some 3, some 8, [("Speed", Val.int 16)]⟩]

theorem enrich_unmatched_not_error_witness :
    (2, 3, [("Name", Val.str "BC")]) ∈
      (enrich_fis_graph gEn sectionsEn enrichmentEn).edges ∧
    (enrich_fis_graph gEn sectionsEn enrichmentEn).edges.length = gEn.edges.length ∧
    ((2 : Int), (none : Option Attrs)) ∈ match_by_route_km sectionsKmW dataKmW ["Speed"] "speed_" ∧
    ((1 : Int), some [("speed_Speed", Val.int 16)]) ∈
      match_by_route_km sectionsKmW dataKmW ["Speed"] "speed_" := by
  refine ⟨?_, ?_, ?_, ?_⟩
  · exact enrich_unmatched_not_error.1 gEn sectionsEn enrichmentEn
      (2, 3, [("Name", Val.str "BC")]) (by decide) (by decide)
  · exact enrich_unmatched_not_error.2.1 gEn sectionsEn enrichmentEn
  · exact enrich_unmatched_not_error.2.2.1 sectionsKmW dataKmW ["Speed"] "speed_"
      ⟨2, 77, 0, 5⟩ (by decide) (by decide) (by decide)
  · have h := enrich_unmatched_not_error.2.2.2 sectionsKmW dataKmW ["Speed"] "speed_"
      ⟨1, 10, 0, 5⟩ ⟨10, 3, 8, [("Speed", Val.int 16)]⟩ (by decide) (by decide) (by decide)
    simpa using h

theorem nearest_fis_node_cons (e : Int × ℚ × ℚ) (rest : List (Int × ℚ × ℚ)) (p : ℚ × ℚ) :
    nearest_fis_node (e :: rest) p =
      match nearest_fis_node rest p with
      | none => some (e.1, distSq e.2 p)
      | some (j, d) =>
        if distSq e.2 p ≤ d then some (e.1, distSq e.2 p) else some (j, d) := rfl

/-- The nearest-node search returns the first index attaining the minimum
(squared) distance, together with that minimum. -/
theorem nearest_fis_node_spec (idx : List (Int × ℚ × ℚ)) (p : ℚ × ℚ) (hne : idx ≠ []) :
    ∃ j d, nearest_fis_node idx p = some (j, d) ∧
      (∃ q, (j, q) ∈ idx ∧ distSq q p = d) ∧
      (∀ e ∈ idx, d ≤ distSq e.2 p) := by
  induction idx with
  | nil => exact absurd rfl hne
  | cons e rest ih =>
    cases rest with
    | nil =>
      refine ⟨e.1, distSq e.2 p, rfl, ⟨e.2, by simp, rfl⟩, ?_⟩
      intro f hf
      rw [List.mem_singleton] at hf
      rw [hf]
    | cons f rest2 =>
      obtain ⟨j, d, hn, ⟨q, hq, hdq⟩, hmin⟩ := ih (by simp)
      by_cases hle : distSq e.2 p ≤ d
      · refine ⟨e.1, distSq e.2 p, ?_, ⟨e.2, by simp, rfl⟩, ?_⟩
        · rw [nearest_fis_node_cons, hn]
          show (if distSq e.2 p ≤ d then some (e.1, distSq e.2 p) else some (j, d)) =
            some (e.1, distSq e.2 p)
          rw [if_pos hle]
        · intro f2 hf2
          rcases List.mem_cons.1 hf2 with rfl | hf3
          · exact le_refl _
          · exact le_trans hle (hmin f2 hf3)
      · refine ⟨j, d, ?_, ⟨q, List.mem_cons_of_mem e hq, hdq⟩, ?_⟩
        · rw [nearest_fis_node_cons, hn]
          show (if distSq e.2 p ≤ d then some (e.1, distSq e.2 p) else some (j, d)) =
            some (j, d)
          rw [if_neg hle]
        · intro f2 hf2
          rcases List.mem_cons.1 hf2 with rfl | hf3
          · exact le_of_lt (not_le.mp hle)
          · exact hmin f2 hf3

theorem match_bridgehead_eq (idx : List (Int × ℚ × ℚ)) (t : ℚ) (p : ℚ × ℚ)
    (j : Int) (d : ℚ) (h : nearest_fis_node idx p = some (j, d)) :
    match_bridgehead idx t p = if d < t * t then some (j, d) else none := by
  unfold match_bridgehead
  rw [h]

/-- C3: over a nonempty FIS point index, the bridgehead matcher pairs the
bridgehead with the first FIS node attaining the minimum Euclidean distance
(squared distances throughout), and the match is accepted exactly when that
minimum is strictly below the threshold (squared). -/
theorem find_geometric_border_connections_match (idx : List (Int × ℚ × ℚ))
    (p : ℚ × ℚ) (t : ℚ) (hne : idx ≠ []) :
    ∃ j d, nearest_fis_node idx p = some (j, d) ∧
      (∃ q, (j, q) ∈ idx ∧ distSq q p = d) ∧
      (∀ e ∈ idx, d ≤ distSq e.2 p) ∧
      match_bridgehead idx t p = if d < t * t then some (j, d) else none := by
  obtain ⟨j, d, hn, hmem, hmin⟩ := nearest_fis_node_spec idx p hne
  exact ⟨j, d, hn, hmem, hmin, match_bridgehead_eq idx t p j d hn⟩

/-- A FIS node 15 distance units from the origin and one 500 units away
(squared: 225 and 250000). -/
def idxW1 : List (Int × ℚ × ℚ) := [(1, 9, 12), (2, 300, 400)]

theorem find_geometric_border_connections_match_witness :
    match_bridgehead idxW1 100 (0, 0) = some (1, 225) ∧
    match_bridgehead [((2 : Int), ((300 : ℚ), (400 : ℚ)))] 100 (0, 0) = none := by
  obtain ⟨j, d, hn, hq, hmin, hmb⟩ :=
    find_geometric_border_connections_match idxW1 ((0 : ℚ), (0 : ℚ)) 100 (by decide)
  constructor
  · norm_num [match_bridgehead, nearest_fis_node, distSq, idxW1]
  · norm_num [match_bridgehead, nearest_fis_node, distSq]

end Fis
